import Mathlib

/-!
Verification of the portfolio rebalancing calculator (`backend/calculator.py`).

Monetary and percentage quantities are Python `Decimal` values; we embed them
as exact rationals (`ℚ`).  `Decimal.quantize(Decimal("0.01"), ROUND_HALF_UP)`
is embedded as `quantize2`, rounding to an integer number of cents with ties
going away from zero (the `ROUND_HALF_UP` rule of Python).
-/

/-- Embedding of the `AssetAllocation` dataclass: input fields
`name`, `target_pct`, `current_value`, `allow_sell`, and the calculated
fields `current_pct`, `buy_sell`, `final_value`, `final_pct`. -/
structure AssetAllocation where
  name : String
  target_pct : ℚ
  current_value : ℚ
  allow_sell : Bool := false
  current_pct : ℚ := 0
  buy_sell : ℚ := 0
  final_value : ℚ := 0
  final_pct : ℚ := 0
deriving Repr, DecidableEq, Inhabited

/-- Round a rational to an integer with ties away from zero
(the `ROUND_HALF_UP` digit rule of Python `Decimal`). -/
def roundHalfUp (x : ℚ) : ℤ :=
  if 0 ≤ x then ⌊x + 1/2⌋ else -⌊-x + 1/2⌋

/-- `x.quantize(Decimal("0.01"), rounding=ROUND_HALF_UP)`. -/
def quantize2 (x : ℚ) : ℚ :=
  (roundHalfUp (100 * x) : ℚ) / 100

/-- `total_current = sum(a.current_value for a in assets)`. -/
def totalCurrent (assets : List AssetAllocation) : ℚ :=
  (assets.map AssetAllocation.current_value).sum

/-- `total_target_pct = sum(a.target_pct for a in assets)`. -/
def totalTargetPct (assets : List AssetAllocation) : ℚ :=
  (assets.map AssetAllocation.target_pct).sum

/-- The per-asset body of the clamping pass in `_apply_constraints`:
returns the new amount, the contribution to `excess`, and whether the
asset was marked constrained this round. -/
def clampOne (a : AssetAllocation) (r : ℚ) : ℚ × ℚ × Bool :=
  if a.allow_sell = false ∧ r < 0 then (0, r, true)
  else if r < -a.current_value then (-a.current_value, r + a.current_value, true)
  else (r, 0, false)

/-- Result of one clamping pass over all assets. -/
structure ClampResult where
  res : List ℚ
  excess : ℚ
  marks : List Bool
deriving Repr, DecidableEq

/-- One clamping pass of `_apply_constraints`: clamp every asset,
accumulating `excess` and the set of indices constrained this round
(represented positionally by `marks`). -/
def clampPass : List AssetAllocation → List ℚ → ClampResult
  | [], _ => ⟨[], 0, []⟩
  | _ :: _, [] => ⟨[], 0, []⟩
  | a :: as, r :: rs =>
    let c := clampOne a r
    let rest := clampPass as rs
    ⟨c.1 :: rest.res, c.2.1 + rest.excess, c.2.2 :: rest.marks⟩

/-- `unconstrained_weight = sum of target_pct over indices not constrained
this round`. -/
def unconstrainedWeight : List AssetAllocation → List Bool → ℚ
  | a :: as, m :: ms => (if m then 0 else a.target_pct) + unconstrainedWeight as ms
  | _, _ => 0

/-- The redistribution step: every asset not constrained this round gets
`excess * (target_pct / unconstrained_weight)` added. -/
def redistribute (excess w : ℚ) : List AssetAllocation → List Bool → List ℚ → List ℚ
  | a :: as, m :: ms, r :: rs =>
    (if m then r else r + excess * (a.target_pct / w)) :: redistribute excess w as ms rs
  | _, _, _ => []

/-- The bounded iteration of `_apply_constraints`, with explicit fuel:
each round clamps, breaks on `excess == 0`, breaks when all assets are
constrained (`unconstrained_weight == 0`), otherwise redistributes and
continues. -/
def constraintLoop (assets : List AssetAllocation) : ℕ → List ℚ → List ℚ
  | 0, result => result
  | n + 1, result =>
    let c := clampPass assets result
    if c.excess = 0 then c.res
    else
      let w := unconstrainedWeight assets c.marks
      if w = 0 then c.res
      else constraintLoop assets n (redistribute c.excess w assets c.marks c.res)

/-- `_apply_constraints(assets, ideal_buy_sell, contribution)`:
`max_iterations = len(assets) * 2`.  (The `contribution` parameter is
unused by the Python body; it is kept for signature fidelity.) -/
def apply_constraints (assets : List AssetAllocation) (ideal_buy_sell : List ℚ)
    (contribution : ℚ) : List ℚ :=
  constraintLoop assets (assets.length * 2) ideal_buy_sell

/-- One full round of the constraint loop viewed as a state transformer
(clamp, then break-tests, then redistribution); used to expose the
round-by-round trace of the solve. -/
def stepOnce (assets : List AssetAllocation) (result : List ℚ) : List ℚ :=
  let c := clampPass assets result
  if c.excess = 0 then c.res
  else
    let w := unconstrainedWeight assets c.marks
    if w = 0 then c.res
    else redistribute c.excess w assets c.marks c.res

/-- The solver state at the start of round `k` (0-indexed). -/
def solverState (assets : List AssetAllocation) (ideal : List ℚ) (k : ℕ) : List ℚ :=
  (stepOnce assets)^[k] ideal

/-- The constrained marks computed during round `k` (0-indexed). -/
def solverMarks (assets : List AssetAllocation) (ideal : List ℚ) (k : ℕ) : List Bool :=
  (clampPass assets (solverState assets ideal k)).marks

/-- The `current_pct` write performed at the top of `calculate_rebalance`. -/
def setCurrentPct (total_current : ℚ) (a : AssetAllocation) : AssetAllocation :=
  { a with current_pct :=
      if 0 < total_current then quantize2 (a.current_value / total_current * 100) else 0 }

/-- The asset list after the `current_pct` pass. -/
def rebalAssets1 (assets : List AssetAllocation) : List AssetAllocation :=
  assets.map (setCurrentPct (totalCurrent assets))

/-- `ideal = (target_pct / total_target_pct) * total_final - current_value`,
per asset. -/
def idealBuySell (assets : List AssetAllocation) (total_target_pct total_final : ℚ) :
    List ℚ :=
  assets.map (fun a => a.target_pct / total_target_pct * total_final - a.current_value)

/-- The output of the constraint solve inside `calculate_rebalance`. -/
def rebalAmounts (assets : List AssetAllocation) (contribution : ℚ) : List ℚ :=
  apply_constraints (rebalAssets1 assets)
    (idealBuySell (rebalAssets1 assets) (totalTargetPct assets)
      (totalCurrent assets + contribution))
    contribution

/-- The per-asset quantized buy/sell amounts. -/
def rebalQuantized (assets : List AssetAllocation) (contribution : ℚ) : List ℚ :=
  (rebalAmounts assets contribution).map quantize2

/-- The pass that writes `buy_sell = quantize(amount)` and
`final_value = current_value + buy_sell`. -/
def applyAmounts : List AssetAllocation → List ℚ → List AssetAllocation
  | a :: as, r :: rs =>
    { a with buy_sell := quantize2 r, final_value := a.current_value + quantize2 r } ::
      applyAmounts as rs
  | _, _ => []

/-- The asset list after quantized amounts are applied. -/
def rebalAssets2 (assets : List AssetAllocation) (contribution : ℚ) : List AssetAllocation :=
  applyAmounts (rebalAssets1 assets) (rebalAmounts assets contribution)

/-- `rounding_diff = contribution - total_buy_sell`. -/
def roundingDiff (assets : List AssetAllocation) (contribution : ℚ) : ℚ :=
  contribution - (rebalQuantized assets contribution).sum

/-- The scan for the asset with the largest `abs(buy_sell)`
(`max_idx`/`max_abs` loop); strict `>` means the earliest index wins ties. -/
def maxAbsAux : ℕ → ℕ × ℚ → List ℚ → ℕ × ℚ
  | _, best, [] => best
  | i, best, x :: xs =>
    if best.2 < |x| then maxAbsAux (i + 1) (i, |x|) xs else maxAbsAux (i + 1) best xs

/-- Index of the asset with the largest absolute buy/sell. -/
def maxAbsIdx (l : List ℚ) : ℕ :=
  (maxAbsAux 0 (0, |l.headD 0|) l).1

/-- `max_idx` as computed in `calculate_rebalance`. -/
def rebalIdx (assets : List AssetAllocation) (contribution : ℚ) : ℕ :=
  maxAbsIdx (rebalQuantized assets contribution)

/-- The asset list after the rounding difference is assigned to the
largest-magnitude position (when nonzero). -/
def rebalAssets3 (assets : List AssetAllocation) (contribution : ℚ) : List AssetAllocation :=
  let assets2 := rebalAssets2 assets contribution
  let diff := roundingDiff assets contribution
  if diff = 0 then assets2
  else
    let a := assets2.getD (rebalIdx assets contribution) default
    assets2.set (rebalIdx assets contribution)
      { a with buy_sell := a.buy_sell + diff, final_value := a.final_value + diff }

/-- The final `final_pct` write. -/
def finalizePct (total_final_actual : ℚ) (a : AssetAllocation) : AssetAllocation :=
  { a with final_pct :=
      if 0 < total_final_actual then quantize2 (a.final_value / total_final_actual * 100)
      else 0 }

/-- Embedding of `calculate_rebalance(assets, contribution)`. -/
def calculate_rebalance (assets : List AssetAllocation) (contribution : ℚ) :
    List AssetAllocation :=
  if assets = [] then assets
  else if totalTargetPct assets = 0 then
    assets.map (fun a =>
      { a with current_pct := 0, buy_sell := 0, final_value := a.current_value,
               final_pct := 0 })
  else if totalCurrent assets + contribution ≤ 0 then
    (rebalAssets1 assets).map (fun a =>
      { a with buy_sell := -a.current_value, final_value := 0, final_pct := 0 })
  else
    let assets3 := rebalAssets3 assets contribution
    assets3.map (finalizePct ((assets3.map AssetAllocation.final_value).sum))

/-- `required_contribution` for one asset (only assets with
`target_pct > 0` contribute). -/
def required_contribution (total_current total_target_pct : ℚ) (a : AssetAllocation) :
    Option ℚ :=
  if 0 < a.target_pct then
    some (a.current_value * total_target_pct / a.target_pct - total_current)
  else none

/-- The `min_contributions` list built by `calculate_auto_contribution`. -/
def min_contributions (assets : List AssetAllocation) : List ℚ :=
  assets.filterMap (required_contribution (totalCurrent assets) (totalTargetPct assets))

/-- `max(min_contributions)` before quantization (0 on the empty list). -/
def maxRequiredVal (assets : List AssetAllocation) : ℚ :=
  match min_contributions assets with
  | [] => 0
  | x :: xs => xs.foldl max x

/-- Embedding of `calculate_auto_contribution(assets)`. -/
def calculate_auto_contribution (assets : List AssetAllocation) : ℚ :=
  if assets = [] then 0
  else if totalTargetPct assets = 0 then 0
  else
    match min_contributions assets with
    | [] => 0
    | x :: xs => quantize2 (xs.foldl max x)

/-- Boolean check that a solver result vector violates no constraint:
every no-sell asset has a nonnegative amount and no amount is below
`-current_value`.  A round of `_apply_constraints` produces `excess == 0`
exactly when its input satisfies this. -/
def noViolB (assets : List AssetAllocation) (result : List ℚ) : Bool :=
  (assets.zip result).all fun p =>
    (p.1.allow_sell || decide (0 ≤ p.2)) && decide (-p.1.current_value ≤ p.2)

/-- Replace the `allow_sell` flag of every asset by `flags i` (positional);
used to state that the auto-contribution solver ignores `allow_sell`. -/
def setAllowSellAux (flags : ℕ → Bool) : ℕ → List AssetAllocation → List AssetAllocation
  | _, [] => []
  | i, a :: as => { a with allow_sell := flags i } :: setAllowSellAux flags (i + 1) as

/-- Replace all `allow_sell` flags according to `flags`. -/
def setAllowSell (assets : List AssetAllocation) (flags : ℕ → Bool) : List AssetAllocation :=
  setAllowSellAux flags 0 assets

/-! ### Rounding lemmas -/

theorem roundHalfUp_intCast (n : ℤ) : roundHalfUp (n : ℚ) = n := by
  unfold roundHalfUp
  by_cases h : (0 : ℚ) ≤ (n : ℚ)
  · rw [if_pos h, Int.floor_int_add]
    norm_num
  · rw [if_neg h]
    have hn : -(n : ℚ) = ((-n : ℤ) : ℚ) := by push_cast; ring
    rw [hn, Int.floor_int_add]
    norm_num

theorem roundHalfUp_nonneg {x : ℚ} (h : 0 ≤ x) : 0 ≤ roundHalfUp x := by
  unfold roundHalfUp
  rw [if_pos h]
  exact Int.le_floor.mpr (by push_cast; linarith)

theorem roundHalfUp_mono {x y : ℚ} (h : x ≤ y) : roundHalfUp x ≤ roundHalfUp y := by
  unfold roundHalfUp
  by_cases hx : 0 ≤ x
  · rw [if_pos hx, if_pos (le_trans hx h)]
    exact Int.floor_mono (by linarith)
  · rw [if_neg hx]
    by_cases hy : 0 ≤ y
    · rw [if_pos hy]
      have h1 : (0 : ℤ) ≤ ⌊-x + 1/2⌋ :=
        Int.le_floor.mpr (by push_cast; linarith [lt_of_not_le hx])
      have h2 : (0 : ℤ) ≤ ⌊y + 1/2⌋ := Int.le_floor.mpr (by push_cast; linarith)
      omega
    · rw [if_neg hy]
      have := Int.floor_mono (show -y + 1/2 ≤ -x + 1/2 by linarith)
      omega

theorem quantize2_zero : quantize2 0 = 0 := by
  have h : roundHalfUp 0 = (0 : ℤ) := by
    have := roundHalfUp_intCast 0
    simpa using this
  simp [quantize2, h]

theorem quantize2_nonneg {x : ℚ} (h : 0 ≤ x) : 0 ≤ quantize2 x := by
  unfold quantize2
  have : (0 : ℤ) ≤ roundHalfUp (100 * x) := roundHalfUp_nonneg (by linarith)
  positivity

theorem quantize2_mono {x y : ℚ} (h : x ≤ y) : quantize2 x ≤ quantize2 y := by
  unfold quantize2
  have : roundHalfUp (100 * x) ≤ roundHalfUp (100 * y) := roundHalfUp_mono (by linarith)
  have hc : ((roundHalfUp (100 * x) : ℚ)) ≤ ((roundHalfUp (100 * y) : ℚ)) := by
    exact_mod_cast this
  linarith

/-- Quantization is the identity on whole numbers of cents. -/
theorem quantize2_den_one {x : ℚ} (h : (100 * x).den = 1) : quantize2 x = x := by
  have hx : (((100 * x).num : ℤ) : ℚ) = 100 * x := (Rat.den_eq_one_iff _).mp h
  unfold quantize2
  rw [← hx, roundHalfUp_intCast, hx]
  ring

/-! ### Generic list lemmas -/

theorem listSumSet (l : List ℚ) (i : ℕ) (x : ℚ) (h : i < l.length) :
    (l.set i x).sum = l.sum - l.getD i 0 + x := by
  induction l generalizing i with
  | nil => simp at h
  | cons a as ih =>
    cases i with
    | zero => simp; ring
    | succ n =>
      have hn : n < as.length := by simpa using h
      simp only [List.set, List.sum_cons, List.getD_cons_succ, ih n hn]
      ring

theorem listGetDSetEq {α : Type} (l : List α) (i : ℕ) (x d : α) (h : i < l.length) :
    (l.set i x).getD i d = x := by
  induction l generalizing i with
  | nil => simp at h
  | cons a as ih =>
    cases i with
    | zero => simp
    | succ n =>
      have hn : n < as.length := by simpa using h
      simpa using ih n hn

theorem listGetDSetNe {α : Type} (l : List α) (i j : ℕ) (x d : α) (hij : i ≠ j) :
    (l.set i x).getD j d = l.getD j d := by
  induction l generalizing i j with
  | nil => simp
  | cons a as ih =>
    cases i with
    | zero =>
      cases j with
      | zero => exact absurd rfl hij
      | succ m => simp
    | succ n =>
      cases j with
      | zero => simp
      | succ m => simpa using ih n m (by omega)

/-! ### Length preservation through the constraint solver -/

theorem clampPass_res_length :
    ∀ (as : List AssetAllocation) (rs : List ℚ), as.length = rs.length →
      (clampPass as rs).res.length = as.length
  | [], [], _ => rfl
  | [], _ :: _, h => by simp at h
  | _ :: _, [], h => by simp at h
  | a :: as, r :: rs, h => by
    simp only [clampPass, List.length_cons]
    rw [clampPass_res_length as rs (by simpa using h)]

theorem clampPass_marks_length :
    ∀ (as : List AssetAllocation) (rs : List ℚ), as.length = rs.length →
      (clampPass as rs).marks.length = as.length
  | [], [], _ => rfl
  | [], _ :: _, h => by simp at h
  | _ :: _, [], h => by simp at h
  | a :: as, r :: rs, h => by
    simp only [clampPass, List.length_cons]
    rw [clampPass_marks_length as rs (by simpa using h)]

theorem redistribute_length (e w : ℚ) :
    ∀ (as : List AssetAllocation) (ms : List Bool) (rs : List ℚ),
      as.length = rs.length → ms.length = rs.length →
      (redistribute e w as ms rs).length = as.length
  | [], _, _, _, _ => rfl
  | _ :: _, [], _, h, h' => by simp at h h'; omega
  | _ :: _, _ :: _, [], h, _ => by simp at h
  | a :: as, m :: ms, r :: rs, h, h' => by
    simp only [redistribute, List.length_cons]
    rw [redistribute_length e w as ms rs (by simpa using h) (by simpa using h')]

theorem constraintLoop_length (assets : List AssetAllocation) :
    ∀ (n : ℕ) (rs : List ℚ), rs.length = assets.length →
      (constraintLoop assets n rs).length = assets.length
  | 0, rs, h => h
  | n + 1, rs, h => by
    simp only [constraintLoop]
    have hres := clampPass_res_length assets rs h.symm
    have hmarks := clampPass_marks_length assets rs h.symm
    split
    · exact hres
    · split
      · exact hres
      · exact constraintLoop_length assets n _
          (by rw [redistribute_length _ _ assets _ _ hres.symm (by omega)])

theorem apply_constraints_length (assets : List AssetAllocation) (ideal : List ℚ)
    (c : ℚ) (h : ideal.length = assets.length) :
    (apply_constraints assets ideal c).length = assets.length :=
  constraintLoop_length assets _ ideal h

/-! ### A violation-free input is a fixed point of the solver -/

theorem clampOne_of_ok {a : AssetAllocation} {r : ℚ}
    (h1 : a.allow_sell = true ∨ 0 ≤ r) (h2 : -a.current_value ≤ r) :
    clampOne a r = (r, 0, false) := by
  unfold clampOne
  rw [if_neg, if_neg]
  · exact not_lt.mpr h2
  · rintro ⟨hf, hlt⟩
    rcases h1 with h1 | h1
    · rw [h1] at hf; exact Bool.noConfusion hf
    · exact absurd hlt (not_lt.mpr h1)

theorem clampPass_of_ok :
    ∀ (as : List AssetAllocation) (rs : List ℚ), as.length = rs.length →
      (∀ p ∈ as.zip rs, (p.1.allow_sell = true ∨ 0 ≤ p.2) ∧ -p.1.current_value ≤ p.2) →
      clampPass as rs = ⟨rs, 0, List.replicate as.length false⟩
  | [], [], _, _ => rfl
  | [], _ :: _, h, _ => by simp at h
  | _ :: _, [], h, _ => by simp at h
  | a :: as, r :: rs, h, hok => by
    have hhead := hok (a, r) (by simp [List.zip_cons_cons])
    have htail : ∀ p ∈ as.zip rs,
        (p.1.allow_sell = true ∨ 0 ≤ p.2) ∧ -p.1.current_value ≤ p.2 := by
      intro p hp
      exact hok p (by simp [List.zip_cons_cons, hp])
    simp only [clampPass, clampPass_of_ok as rs (by simpa using h) htail,
      clampOne_of_ok hhead.1 hhead.2, List.length_cons, List.replicate_succ]
    norm_num

theorem constraintLoop_of_ok (assets : List AssetAllocation) (rs : List ℚ) (n : ℕ)
    (h : assets.length = rs.length)
    (hok : ∀ p ∈ assets.zip rs,
      (p.1.allow_sell = true ∨ 0 ≤ p.2) ∧ -p.1.current_value ≤ p.2) :
    constraintLoop assets (n + 1) rs = rs := by
  simp only [constraintLoop, clampPass_of_ok assets rs h hok, if_pos]

theorem apply_constraints_of_ok (assets : List AssetAllocation) (rs : List ℚ) (c : ℚ)
    (h : assets.length = rs.length)
    (hok : ∀ p ∈ assets.zip rs,
      (p.1.allow_sell = true ∨ 0 ≤ p.2) ∧ -p.1.current_value ≤ p.2) :
    apply_constraints assets rs c = rs := by
  unfold apply_constraints
  cases hn : assets.length * 2 with
  | zero => rfl
  | succ n => exact constraintLoop_of_ok assets rs n h hok

/-! ### The `noViolB` check, pointwise -/

theorem noViolB_iff (as : List AssetAllocation) (rs : List ℚ) :
    noViolB as rs = true ↔
      ∀ p ∈ as.zip rs, (p.1.allow_sell = true ∨ 0 ≤ p.2) ∧ -p.1.current_value ≤ p.2 := by
  unfold noViolB
  rw [List.all_eq_true]
  refine forall_congr' fun p => forall_congr' fun _ => ?_
  simp [Bool.or_eq_true, Bool.and_eq_true, decide_eq_true_iff]

theorem listZipGetDMem {α β : Type} (d1 : α) (d2 : β) :
    ∀ (xs : List α) (ys : List β) (i : ℕ), i < xs.length → i < ys.length →
      (xs.getD i d1, ys.getD i d2) ∈ xs.zip ys
  | [], _, _, h, _ => by simp at h
  | _ :: _, [], _, _, h => by simp at h
  | x :: xs, y :: ys, 0, _, _ => by simp [List.zip_cons_cons]
  | x :: xs, y :: ys, n + 1, h1, h2 => by
    simp only [List.getD_cons_succ, List.zip_cons_cons]
    exact List.mem_cons_of_mem _
      (listZipGetDMem d1 d2 xs ys n (by simpa using h1) (by simpa using h2))

theorem noViolB_getD {as : List AssetAllocation} {rs : List ℚ}
    (h : noViolB as rs = true) (hlen : as.length = rs.length)
    (i : ℕ) (hi : i < as.length) :
    ((as.getD i default).allow_sell = true ∨ 0 ≤ rs.getD i 0) ∧
      -(as.getD i default).current_value ≤ rs.getD i 0 := by
  have hi' : i < rs.length := hlen ▸ hi
  exact (noViolB_iff as rs).mp h _ (listZipGetDMem default 0 as rs i hi hi')

/-! ### Specification of the largest-|buy_sell| scan -/

theorem maxAbsAux_spec (xs : List ℚ) :
    ∀ (i bi : ℕ) (bv : ℚ), bi ≤ i →
      (maxAbsAux i (bi, bv) xs = (bi, bv) ∨
        ∃ k, k < xs.length ∧ (maxAbsAux i (bi, bv) xs).1 = i + k ∧
          (maxAbsAux i (bi, bv) xs).2 = |xs.getD k 0| ∧ bv < (maxAbsAux i (bi, bv) xs).2) ∧
      bv ≤ (maxAbsAux i (bi, bv) xs).2 ∧
      (∀ k, k < xs.length → |xs.getD k 0| ≤ (maxAbsAux i (bi, bv) xs).2) ∧
      (∀ k, k < xs.length → i + k < (maxAbsAux i (bi, bv) xs).1 →
        |xs.getD k 0| < (maxAbsAux i (bi, bv) xs).2) := by
  induction xs with
  | nil =>
    intro i bi bv _
    refine ⟨Or.inl rfl, le_refl _, ?_, ?_⟩ <;> intro k hk <;> simp at hk
  | cons x xs ih =>
    intro i bi bv hbi
    by_cases hx : bv < |x|
    · have h' := ih (i + 1) i |x| (by omega)
      obtain ⟨ih1, ih2, ih3, ih4⟩ := h'
      have hstep : maxAbsAux i (bi, bv) (x :: xs) = maxAbsAux (i + 1) (i, |x|) xs := by
        simp only [maxAbsAux, if_pos hx]
      rw [hstep]
      refine ⟨?_, ?_, ?_, ?_⟩
      · rcases ih1 with h | ⟨k, hk, h1, h2, h3⟩
        · exact Or.inr ⟨0, by simp, by rw [h]; simp, by rw [h]; simp, by rw [h]; exact hx⟩
        · exact Or.inr ⟨k + 1, by simpa using hk, by omega,
            by simpa using h2, lt_trans hx h3⟩
      · exact le_of_lt (lt_of_lt_of_le hx ih2)
      · intro k hk
        cases k with
        | zero => simpa using ih2
        | succ n => simpa using ih3 n (by simpa using hk)
      · intro k hk hlt
        cases k with
        | zero =>
          rcases ih1 with h | ⟨k', hk', h1, h2, h3⟩
          · rw [h] at hlt; simp at hlt
          · simpa using h3
        | succ n =>
          exact (by simpa using ih4 n (by simpa using hk) (by omega) :
            |xs.getD n 0| < (maxAbsAux (i + 1) (i, |x|) xs).2)
    · have h' := ih (i + 1) bi bv (by omega)
      obtain ⟨ih1, ih2, ih3, ih4⟩ := h'
      have hstep : maxAbsAux i (bi, bv) (x :: xs) = maxAbsAux (i + 1) (bi, bv) xs := by
        simp only [maxAbsAux, if_neg hx]
      rw [hstep]
      refine ⟨?_, ih2, ?_, ?_⟩
      · rcases ih1 with h | ⟨k, hk, h1, h2, h3⟩
        · exact Or.inl h
        · exact Or.inr ⟨k + 1, by simpa using hk, by omega, by simpa using h2, h3⟩
      · intro k hk
        cases k with
        | zero => simpa using le_trans (not_lt.mp hx) ih2
        | succ n => simpa using ih3 n (by simpa using hk)
      · intro k hk hlt
        cases k with
        | zero =>
          rcases ih1 with h | ⟨k', hk', h1, h2, h3⟩
          · rw [h] at hlt; simp only at hlt; omega
          · exact lt_of_le_of_lt (by simpa using not_lt.mp hx) h3
        | succ n =>
          exact (by simpa using ih4 n (by simpa using hk) (by omega) :
            |xs.getD n 0| < (maxAbsAux (i + 1) (bi, bv) xs).2)

theorem listHeadDEqGetD (l : List ℚ) (h : l ≠ []) : l.headD 0 = l.getD 0 0 := by
  cases l with
  | nil => exact absurd rfl h
  | cons a as => rfl

theorem maxAbsIdx_lt_length (l : List ℚ) (h : l ≠ []) : maxAbsIdx l < l.length := by
  unfold maxAbsIdx
  rcases (maxAbsAux_spec l 0 0 _ (le_refl 0)).1 with h1 | ⟨k, hk, h1, _, _⟩
  · rw [h1]
    cases l with
    | nil => exact absurd rfl h
    | cons a as => simp
  · rw [h1]; omega

theorem maxAbsIdx_val (l : List ℚ) (h : l ≠ []) :
    (maxAbsAux 0 (0, |l.headD 0|) l).2 = |l.getD (maxAbsIdx l) 0| := by
  unfold maxAbsIdx
  rcases (maxAbsAux_spec l 0 0 _ (le_refl 0)).1 with h1 | ⟨k, hk, h1, h2, _⟩
  · rw [h1, listHeadDEqGetD l h]
  · rw [h1, h2]; norm_num

theorem maxAbsIdx_is_max (l : List ℚ) (h : l ≠ []) :
    ∀ j, j < l.length → |l.getD j 0| ≤ |l.getD (maxAbsIdx l) 0| := by
  intro j hj
  rw [← maxAbsIdx_val l h]
  exact (maxAbsAux_spec l 0 0 _ (le_refl 0)).2.2.1 j hj

theorem maxAbsIdx_first_wins (l : List ℚ) (h : l ≠ []) :
    ∀ j, j < maxAbsIdx l → |l.getD j 0| < |l.getD (maxAbsIdx l) 0| := by
  intro j hj
  have hlt : maxAbsIdx l < l.length := maxAbsIdx_lt_length l h
  have hj' : j < (maxAbsAux 0 (0, |l.headD 0|) l).1 := hj
  have hlt' : (maxAbsAux 0 (0, |l.headD 0|) l).1 < l.length := hlt
  rw [← maxAbsIdx_val l h]
  exact (maxAbsAux_spec l 0 0 _ (le_refl 0)).2.2.2 j (by omega) (by omega)

/-! ### The quantize-and-assign pass -/

theorem applyAmounts_length :
    ∀ (as : List AssetAllocation) (rs : List ℚ), as.length = rs.length →
      (applyAmounts as rs).length = as.length
  | [], [], _ => rfl
  | [], _ :: _, h => by simp at h
  | _ :: _, [], h => by simp at h
  | a :: as, r :: rs, h => by
    simp only [applyAmounts, List.length_cons]
    rw [applyAmounts_length as rs (by simpa using h)]

theorem applyAmounts_map_buy_sell :
    ∀ (as : List AssetAllocation) (rs : List ℚ), as.length = rs.length →
      (applyAmounts as rs).map AssetAllocation.buy_sell = rs.map quantize2
  | [], [], _ => rfl
  | [], _ :: _, h => by simp at h
  | _ :: _, [], h => by simp at h
  | a :: as, r :: rs, h => by
    simp only [applyAmounts, List.map_cons]
    rw [applyAmounts_map_buy_sell as rs (by simpa using h)]

theorem applyAmounts_map_final_value :
    ∀ (as : List AssetAllocation) (rs : List ℚ), as.length = rs.length →
      (applyAmounts as rs).map AssetAllocation.final_value =
        List.zipWith (fun c q => c + q) (as.map AssetAllocation.current_value)
          (rs.map quantize2)
  | [], [], _ => rfl
  | [], _ :: _, h => by simp at h
  | _ :: _, [], h => by simp at h
  | a :: as, r :: rs, h => by
    simp only [applyAmounts, List.map_cons, List.zipWith_cons_cons]
    rw [applyAmounts_map_final_value as rs (by simpa using h)]

theorem applyAmounts_getD :
    ∀ (as : List AssetAllocation) (rs : List ℚ), as.length = rs.length →
      ∀ i, i < as.length →
      (applyAmounts as rs).getD i default =
        { as.getD i default with
            buy_sell := quantize2 (rs.getD i 0),
            final_value := (as.getD i default).current_value + quantize2 (rs.getD i 0) }
  | [], [], _ => by intro i hi; simp at hi
  | [], _ :: _, h => by simp at h
  | _ :: _, [], h => by simp at h
  | a :: as, r :: rs, h => by
    intro i hi
    cases i with
    | zero => simp [applyAmounts]
    | succ n =>
      simp only [applyAmounts, List.getD_cons_succ]
      exact applyAmounts_getD as rs (by simpa using h) n (by simpa using hi)

theorem zipWithAddSetRight :
    ∀ (xs ys : List ℚ) (i : ℕ) (v : ℚ), i < xs.length → i < ys.length →
      List.zipWith (fun c q => c + q) xs (ys.set i v) =
        (List.zipWith (fun c q => c + q) xs ys).set i (xs.getD i 0 + v)
  | [], _, _, _, h, _ => by simp at h
  | _ :: _, [], _, _, _, h => by simp at h
  | x :: xs, y :: ys, 0, v, _, _ => by simp
  | x :: xs, y :: ys, n + 1, v, h1, h2 => by
    simp only [List.set, List.zipWith_cons_cons, List.getD_cons_succ]
    rw [zipWithAddSetRight xs ys n v (by simpa using h1) (by simpa using h2)]

/-! ### Field preservation and lengths through the pipeline stages -/

theorem rebalAssets1_length (assets : List AssetAllocation) :
    (rebalAssets1 assets).length = assets.length := by
  simp [rebalAssets1]

theorem rebalAssets1_map_current_value (assets : List AssetAllocation) :
    (rebalAssets1 assets).map AssetAllocation.current_value =
      assets.map AssetAllocation.current_value := by
  unfold rebalAssets1
  rw [List.map_map]
  rfl

theorem rebalAssets1_map_target_pct (assets : List AssetAllocation) :
    (rebalAssets1 assets).map AssetAllocation.target_pct =
      assets.map AssetAllocation.target_pct := by
  unfold rebalAssets1
  rw [List.map_map]
  rfl

theorem totalCurrent_rebalAssets1 (assets : List AssetAllocation) :
    totalCurrent (rebalAssets1 assets) = totalCurrent assets := by
  unfold totalCurrent
  rw [rebalAssets1_map_current_value]

theorem totalTargetPct_rebalAssets1 (assets : List AssetAllocation) :
    totalTargetPct (rebalAssets1 assets) = totalTargetPct assets := by
  unfold totalTargetPct
  rw [rebalAssets1_map_target_pct]

theorem rebalAmounts_length (assets : List AssetAllocation) (c : ℚ) :
    (rebalAmounts assets c).length = assets.length := by
  unfold rebalAmounts
  rw [apply_constraints_length _ _ _ (by simp [idealBuySell]), rebalAssets1_length]

theorem rebalQuantized_length (assets : List AssetAllocation) (c : ℚ) :
    (rebalQuantized assets c).length = assets.length := by
  simp [rebalQuantized, rebalAmounts_length]

theorem rebalAssets2_length (assets : List AssetAllocation) (c : ℚ) :
    (rebalAssets2 assets c).length = assets.length := by
  unfold rebalAssets2
  rw [applyAmounts_length _ _ (by rw [rebalAmounts_length, rebalAssets1_length]),
    rebalAssets1_length]

theorem rebalAssets2_map_buy_sell (assets : List AssetAllocation) (c : ℚ) :
    (rebalAssets2 assets c).map AssetAllocation.buy_sell = rebalQuantized assets c := by
  unfold rebalAssets2 rebalQuantized
  rw [applyAmounts_map_buy_sell _ _ (by rw [rebalAmounts_length, rebalAssets1_length])]

theorem rebalAssets2_map_final_value (assets : List AssetAllocation) (c : ℚ) :
    (rebalAssets2 assets c).map AssetAllocation.final_value =
      List.zipWith (fun cv q => cv + q) (assets.map AssetAllocation.current_value)
        (rebalQuantized assets c) := by
  unfold rebalAssets2 rebalQuantized
  rw [applyAmounts_map_final_value _ _ (by rw [rebalAmounts_length, rebalAssets1_length]),
    rebalAssets1_map_current_value]

/-! ### Pointwise descriptions of the pipeline stages -/

theorem listGetDMapLt {α β : Type} (f : α → β) (l : List α) (i : ℕ)
    (h : i < l.length) (d : β) (d' : α) :
    (l.map f).getD i d = f (l.getD i d') := by
  rw [List.getD_eq_getElem _ _ (by simpa using h), List.getD_eq_getElem _ _ h,
    List.getElem_map]

theorem rebalAssets1_getD (assets : List AssetAllocation) (i : ℕ)
    (h : i < assets.length) :
    (rebalAssets1 assets).getD i default =
      setCurrentPct (totalCurrent assets) (assets.getD i default) := by
  unfold rebalAssets1
  exact listGetDMapLt _ assets i h default default

theorem rebalQuantized_getD (assets : List AssetAllocation) (c : ℚ) (i : ℕ)
    (h : i < assets.length) :
    (rebalQuantized assets c).getD i 0 =
      quantize2 ((rebalAmounts assets c).getD i 0) := by
  unfold rebalQuantized
  exact listGetDMapLt quantize2 _ i (by rw [rebalAmounts_length]; exact h) 0 0

theorem rebalAssets2_getD (assets : List AssetAllocation) (c : ℚ) (i : ℕ)
    (h : i < assets.length) :
    (rebalAssets2 assets c).getD i default =
      { (rebalAssets1 assets).getD i default with
          buy_sell := quantize2 ((rebalAmounts assets c).getD i 0),
          final_value := ((rebalAssets1 assets).getD i default).current_value +
            quantize2 ((rebalAmounts assets c).getD i 0) } := by
  unfold rebalAssets2
  exact applyAmounts_getD _ _ (by rw [rebalAmounts_length, rebalAssets1_length])
    i (by rw [rebalAssets1_length]; exact h)

theorem rebalAssets2_getD_buy_sell (assets : List AssetAllocation) (c : ℚ) (i : ℕ)
    (h : i < assets.length) :
    ((rebalAssets2 assets c).getD i default).buy_sell =
      (rebalQuantized assets c).getD i 0 := by
  rw [rebalAssets2_getD assets c i h, rebalQuantized_getD assets c i h]

theorem rebalAssets2_getD_final_value (assets : List AssetAllocation) (c : ℚ) (i : ℕ)
    (h : i < assets.length) :
    ((rebalAssets2 assets c).getD i default).final_value =
      (assets.getD i default).current_value + (rebalQuantized assets c).getD i 0 := by
  rw [rebalAssets2_getD assets c i h, rebalQuantized_getD assets c i h,
    rebalAssets1_getD assets i h]
  rfl

/-! ### The branches of `calculate_rebalance` -/

theorem calculate_rebalance_main (assets : List AssetAllocation) (c : ℚ)
    (h1 : assets ≠ []) (h2 : totalTargetPct assets ≠ 0)
    (h3 : 0 < totalCurrent assets + c) :
    calculate_rebalance assets c =
      (rebalAssets3 assets c).map
        (finalizePct (((rebalAssets3 assets c).map AssetAllocation.final_value).sum)) := by
  unfold calculate_rebalance
  rw [if_neg h1, if_neg h2, if_neg (not_le.mpr h3)]

theorem map_buy_sell_finalize (l : List AssetAllocation) (t : ℚ) :
    (l.map (finalizePct t)).map AssetAllocation.buy_sell =
      l.map AssetAllocation.buy_sell := by
  rw [List.map_map]
  rfl

theorem map_final_value_finalize (l : List AssetAllocation) (t : ℚ) :
    (l.map (finalizePct t)).map AssetAllocation.final_value =
      l.map AssetAllocation.final_value := by
  rw [List.map_map]
  rfl

theorem rebalQuantized_ne_nil (assets : List AssetAllocation) (c : ℚ)
    (h1 : assets ≠ []) : rebalQuantized assets c ≠ [] := by
  intro h0
  apply h1
  have := rebalQuantized_length assets c
  rw [h0] at this
  exact List.length_eq_zero.mp this.symm

theorem rebalIdx_lt (assets : List AssetAllocation) (c : ℚ) (h1 : assets ≠ []) :
    rebalIdx assets c < assets.length := by
  have := maxAbsIdx_lt_length _ (rebalQuantized_ne_nil assets c h1)
  rwa [rebalQuantized_length] at this

theorem rebalAssets3_map_buy_sell (assets : List AssetAllocation) (c : ℚ)
    (h1 : assets ≠ []) :
    (rebalAssets3 assets c).map AssetAllocation.buy_sell =
      if roundingDiff assets c = 0 then rebalQuantized assets c
      else (rebalQuantized assets c).set (rebalIdx assets c)
        ((rebalQuantized assets c).getD (rebalIdx assets c) 0 + roundingDiff assets c) := by
  unfold rebalAssets3
  by_cases hd : roundingDiff assets c = 0
  · rw [if_pos hd, if_pos hd, rebalAssets2_map_buy_sell]
  · rw [if_neg hd, if_neg hd, List.map_set, rebalAssets2_map_buy_sell]
    have hgb := rebalAssets2_getD_buy_sell assets c _ (rebalIdx_lt assets c h1)
    show (rebalQuantized assets c).set (rebalIdx assets c)
        (((rebalAssets2 assets c).getD (rebalIdx assets c) default).buy_sell +
          roundingDiff assets c) = _
    rw [hgb]

theorem rebalAssets3_map_final_value (assets : List AssetAllocation) (c : ℚ)
    (h1 : assets ≠ []) :
    (rebalAssets3 assets c).map AssetAllocation.final_value =
      if roundingDiff assets c = 0 then
        List.zipWith (fun cv q => cv + q) (assets.map AssetAllocation.current_value)
          (rebalQuantized assets c)
      else (List.zipWith (fun cv q => cv + q) (assets.map AssetAllocation.current_value)
          (rebalQuantized assets c)).set (rebalIdx assets c)
        ((assets.getD (rebalIdx assets c) default).current_value +
          (rebalQuantized assets c).getD (rebalIdx assets c) 0 + roundingDiff assets c) := by
  unfold rebalAssets3
  by_cases hd : roundingDiff assets c = 0
  · rw [if_pos hd, if_pos hd, rebalAssets2_map_final_value]
  · rw [if_neg hd, if_neg hd, List.map_set, rebalAssets2_map_final_value]
    have hgf := rebalAssets2_getD_final_value assets c _ (rebalIdx_lt assets c h1)
    show (List.zipWith _ _ _).set (rebalIdx assets c)
        (((rebalAssets2 assets c).getD (rebalIdx assets c) default).final_value +
          roundingDiff assets c) = _
    rw [hgf]

theorem sumZipWithAdd :
    ∀ (xs ys : List ℚ), xs.length = ys.length →
      (List.zipWith (fun a b => a + b) xs ys).sum = xs.sum + ys.sum
  | [], [], _ => by simp
  | [], _ :: _, h => by simp at h
  | _ :: _, [], h => by simp at h
  | x :: xs, y :: ys, h => by
    simp only [List.zipWith_cons_cons, List.sum_cons]
    rw [sumZipWithAdd xs ys (by simpa using h)]
    ring

theorem getDZipWithAdd :
    ∀ (xs ys : List ℚ) (i : ℕ), i < xs.length → i < ys.length →
      (List.zipWith (fun a b => a + b) xs ys).getD i 0 = xs.getD i 0 + ys.getD i 0
  | [], _, _, h, _ => by simp at h
  | _ :: _, [], _, _, h => by simp at h
  | x :: xs, y :: ys, 0, _, _ => by simp
  | x :: xs, y :: ys, n + 1, h1, h2 => by
    simp only [List.zipWith_cons_cons, List.getD_cons_succ]
    exact getDZipWithAdd xs ys n (by simpa using h1) (by simpa using h2)

/-! ### Claim C1: exact conservation -/

/-- **C1.** For every non-empty asset list with `total_target_pct > 0` and
every contribution with `Σ current_value + contribution > 0`, after
`calculate_rebalance` the buy/sell amounts sum exactly to the contribution
and the final values sum exactly to `Σ current_value + contribution`. -/
theorem rebalance_conservation (assets : List AssetAllocation) (c : ℚ)
    (h1 : assets ≠ []) (h2 : 0 < totalTargetPct assets)
    (h3 : 0 < totalCurrent assets + c) :
    ((calculate_rebalance assets c).map AssetAllocation.buy_sell).sum = c ∧
    ((calculate_rebalance assets c).map AssetAllocation.final_value).sum =
      totalCurrent assets + c := by
  rw [calculate_rebalance_main assets c h1 (ne_of_gt h2) h3,
    map_buy_sell_finalize, map_final_value_finalize,
    rebalAssets3_map_buy_sell assets c h1, rebalAssets3_map_final_value assets c h1]
  have hlenq : (rebalQuantized assets c).length = assets.length :=
    rebalQuantized_length assets c
  have hidx := rebalIdx_lt assets c h1
  have hdiff : roundingDiff assets c = c - (rebalQuantized assets c).sum := rfl
  have htc : totalCurrent assets = (assets.map AssetAllocation.current_value).sum := rfl
  constructor
  · split_ifs with hd
    · rw [hdiff] at hd
      linarith
    · rw [listSumSet _ _ _ (by omega)]
      linarith [hdiff]
  · split_ifs with hd
    · rw [sumZipWithAdd _ _ (by simp [hlenq]), hdiff] at *
      linarith
    · rw [listSumSet _ _ _ (by rw [List.length_zipWith]; simp [hlenq]; omega),
        sumZipWithAdd _ _ (by simp [hlenq]),
        getDZipWithAdd _ _ _ (by simp [hidx]) (by omega),
        listGetDMapLt AssetAllocation.current_value assets _ hidx 0 default]
      linarith [hdiff]

/-- Concrete example: two assets 60/40 with a `1000` contribution. -/
def exBasic : List AssetAllocation :=
  [{ name := "Stocks", target_pct := 60, current_value := 6000 },
   { name := "Bonds", target_pct := 40, current_value := 4000 }]

theorem rebalance_conservation_witness :
    ((calculate_rebalance exBasic 1000).map AssetAllocation.buy_sell).sum = 1000 ∧
    ((calculate_rebalance exBasic 1000).map AssetAllocation.final_value).sum =
      totalCurrent exBasic + 1000 :=
  rebalance_conservation exBasic 1000 (by simp [exBasic])
    (by norm_num [exBasic, totalTargetPct]) (by norm_num [exBasic, totalCurrent])

/-! ### Claim C6: liquidation on exhausting withdrawals -/

/-- **C6.** If `Σ current_value + contribution ≤ 0` (with a non-empty list and
positive total target), every asset is liquidated: `buy_sell = -current_value`,
`final_value = 0`, `final_pct = 0`; the constraint solver and rounding steps
never run on this branch. -/
theorem liquidation_branch (assets : List AssetAllocation) (c : ℚ)
    (h1 : assets ≠ []) (h2 : 0 < totalTargetPct assets)
    (h3 : totalCurrent assets + c ≤ 0) :
    (calculate_rebalance assets c).length = assets.length ∧
    ∀ i, i < assets.length →
      ((calculate_rebalance assets c).getD i default).buy_sell =
        -(assets.getD i default).current_value ∧
      ((calculate_rebalance assets c).getD i default).final_value = 0 ∧
      ((calculate_rebalance assets c).getD i default).final_pct = 0 := by
  unfold calculate_rebalance
  rw [if_neg h1, if_neg (ne_of_gt h2), if_pos h3]
  constructor
  · rw [List.length_map, rebalAssets1_length]
  · intro i hi
    rw [listGetDMapLt _ (rebalAssets1 assets) i (by rw [rebalAssets1_length]; exact hi)
        default default,
      rebalAssets1_getD assets i hi]
    exact ⟨rfl, rfl, rfl⟩

theorem liquidation_branch_witness :
    ((calculate_rebalance exBasic (-15000)).length = exBasic.length ∧
    ∀ i, i < exBasic.length →
      ((calculate_rebalance exBasic (-15000)).getD i default).buy_sell =
        -(exBasic.getD i default).current_value ∧
      ((calculate_rebalance exBasic (-15000)).getD i default).final_value = 0 ∧
      ((calculate_rebalance exBasic (-15000)).getD i default).final_pct = 0) :=
  liquidation_branch exBasic (-15000) (by simp [exBasic])
    (by norm_num [exBasic, totalTargetPct]) (by norm_num [exBasic, totalCurrent])

/-! ### Claim C10: input fields are never modified -/

/-- The four input fields of an asset record. -/
def inputFieldsEq (a b : AssetAllocation) : Prop :=
  a.name = b.name ∧ a.target_pct = b.target_pct ∧
    a.current_value = b.current_value ∧ a.allow_sell = b.allow_sell

theorem rebalAssets3_length (assets : List AssetAllocation) (c : ℚ) :
    (rebalAssets3 assets c).length = assets.length := by
  unfold rebalAssets3
  by_cases hd : roundingDiff assets c = 0
  · rw [if_pos hd]
    exact rebalAssets2_length assets c
  · rw [if_neg hd, List.length_set]
    exact rebalAssets2_length assets c

theorem rebalAssets2_getD_inputs (assets : List AssetAllocation) (c : ℚ) (i : ℕ)
    (h : i < assets.length) :
    inputFieldsEq ((rebalAssets2 assets c).getD i default) (assets.getD i default) := by
  rw [rebalAssets2_getD assets c i h, rebalAssets1_getD assets i h]
  exact ⟨rfl, rfl, rfl, rfl⟩

theorem rebalAssets3_getD_inputs (assets : List AssetAllocation) (c : ℚ) (i : ℕ)
    (h : i < assets.length) :
    inputFieldsEq ((rebalAssets3 assets c).getD i default) (assets.getD i default) := by
  unfold rebalAssets3
  by_cases hd : roundingDiff assets c = 0
  · rw [if_pos hd]
    exact rebalAssets2_getD_inputs assets c i h
  · rw [if_neg hd]
    by_cases hij : rebalIdx assets c = i
    · subst hij
      rw [listGetDSetEq _ _ _ _ (by rw [rebalAssets2_length]; exact h)]
      have := rebalAssets2_getD_inputs assets c _ h
      exact ⟨this.1, this.2.1, this.2.2.1, this.2.2.2⟩
    · rw [listGetDSetNe _ _ _ _ _ hij]
      exact rebalAssets2_getD_inputs assets c i h

/-- **C10.** `calculate_rebalance` never modifies `name`, `target_pct`,
`current_value` or `allow_sell`; it writes only the computed fields.
(`calculate_auto_contribution` is a pure function of the asset list that
returns a scalar, so it modifies nothing.) -/
theorem rebalance_frame (assets : List AssetAllocation) (c : ℚ) :
    (calculate_rebalance assets c).length = assets.length ∧
    ∀ i, i < assets.length →
      inputFieldsEq ((calculate_rebalance assets c).getD i default)
        (assets.getD i default) := by
  unfold calculate_rebalance
  by_cases h1 : assets = []
  · subst h1
    rw [if_pos rfl]
    exact ⟨rfl, fun i hi => by simp at hi⟩
  rw [if_neg h1]
  by_cases h2 : totalTargetPct assets = 0
  · rw [if_pos h2]
    refine ⟨by rw [List.length_map], fun i hi => ?_⟩
    rw [listGetDMapLt _ assets i hi default default]
    exact ⟨rfl, rfl, rfl, rfl⟩
  rw [if_neg h2]
  by_cases h3 : totalCurrent assets + c ≤ 0
  · rw [if_pos h3]
    refine ⟨by rw [List.length_map, rebalAssets1_length], fun i hi => ?_⟩
    rw [listGetDMapLt _ (rebalAssets1 assets) i (by rw [rebalAssets1_length]; exact hi)
        default default, rebalAssets1_getD assets i hi]
    exact ⟨rfl, rfl, rfl, rfl⟩
  · rw [if_neg h3]
    refine ⟨by rw [List.length_map, rebalAssets3_length], fun i hi => ?_⟩
    rw [listGetDMapLt _ (rebalAssets3 assets c) i
        (by rw [rebalAssets3_length]; exact hi) default default]
    have := rebalAssets3_getD_inputs assets c i hi
    exact ⟨this.1, this.2.1, this.2.2.1, this.2.2.2⟩

theorem rebalance_frame_witness :
    ((calculate_rebalance exBasic 1000).length = exBasic.length ∧
    ∀ i, i < exBasic.length →
      inputFieldsEq ((calculate_rebalance exBasic 1000).getD i default)
        (exBasic.getD i default)) :=
  rebalance_frame exBasic 1000

/-! ### Claim C5: the rounding difference goes to the largest position -/

/-- **C5.** On the main path, when `rounding_diff = contribution - Σ quantized
buy_sell` is nonzero, the entire difference is added to the `buy_sell` and
`final_value` of exactly the asset with the largest `|buy_sell|` (earliest
index wins ties); every other asset keeps its quantized `buy_sell` and
`current_value + buy_sell` as `final_value`. -/
theorem rounding_assignment (assets : List AssetAllocation) (c : ℚ)
    (h1 : assets ≠ []) (h2 : totalTargetPct assets ≠ 0)
    (h3 : 0 < totalCurrent assets + c) (h4 : roundingDiff assets c ≠ 0) :
    rebalIdx assets c < assets.length ∧
    (∀ j, j < assets.length →
      |(rebalQuantized assets c).getD j 0| ≤
        |(rebalQuantized assets c).getD (rebalIdx assets c) 0|) ∧
    (∀ j, j < rebalIdx assets c →
      |(rebalQuantized assets c).getD j 0| <
        |(rebalQuantized assets c).getD (rebalIdx assets c) 0|) ∧
    (calculate_rebalance assets c).map AssetAllocation.buy_sell =
      (rebalQuantized assets c).set (rebalIdx assets c)
        ((rebalQuantized assets c).getD (rebalIdx assets c) 0 + roundingDiff assets c) ∧
    (calculate_rebalance assets c).map AssetAllocation.final_value =
      List.zipWith (fun cv q => cv + q) (assets.map AssetAllocation.current_value)
        ((rebalQuantized assets c).set (rebalIdx assets c)
          ((rebalQuantized assets c).getD (rebalIdx assets c) 0 +
            roundingDiff assets c)) := by
  have hq := rebalQuantized_ne_nil assets c h1
  have hlen := rebalQuantized_length assets c
  have hidx := rebalIdx_lt assets c h1
  refine ⟨hidx, ?_, ?_, ?_, ?_⟩
  · intro j hj
    exact maxAbsIdx_is_max _ hq j (by omega)
  · intro j hj
    exact maxAbsIdx_first_wins _ hq j hj
  · rw [calculate_rebalance_main assets c h1 h2 h3, map_buy_sell_finalize,
      rebalAssets3_map_buy_sell assets c h1, if_neg h4]
  · rw [calculate_rebalance_main assets c h1 h2 h3, map_final_value_finalize,
      rebalAssets3_map_final_value assets c h1, if_neg h4,
      zipWithAddSetRight _ _ _ _ (by simpa using hidx) (by omega),
      listGetDMapLt AssetAllocation.current_value assets _ hidx 0 default,
      add_assoc]

/-- Three equal assets with a one-cent contribution: every quantized amount is
zero, so the whole cent is a rounding difference. -/
def exRound : List AssetAllocation :=
  [{ name := "A", target_pct := 10, current_value := 100 },
   { name := "B", target_pct := 10, current_value := 100 },
   { name := "C", target_pct := 10, current_value := 100 }]

theorem rounding_assignment_witness :
    rebalIdx exRound (1/100) < exRound.length ∧
    (∀ j, j < exRound.length →
      |(rebalQuantized exRound (1/100)).getD j 0| ≤
        |(rebalQuantized exRound (1/100)).getD (rebalIdx exRound (1/100)) 0|) ∧
    (∀ j, j < rebalIdx exRound (1/100) →
      |(rebalQuantized exRound (1/100)).getD j 0| <
        |(rebalQuantized exRound (1/100)).getD (rebalIdx exRound (1/100)) 0|) ∧
    (calculate_rebalance exRound (1/100)).map AssetAllocation.buy_sell =
      (rebalQuantized exRound (1/100)).set (rebalIdx exRound (1/100))
        ((rebalQuantized exRound (1/100)).getD (rebalIdx exRound (1/100)) 0 +
          roundingDiff exRound (1/100)) ∧
    (calculate_rebalance exRound (1/100)).map AssetAllocation.final_value =
      List.zipWith (fun cv q => cv + q) (exRound.map AssetAllocation.current_value)
        ((rebalQuantized exRound (1/100)).set (rebalIdx exRound (1/100))
          ((rebalQuantized exRound (1/100)).getD (rebalIdx exRound (1/100)) 0 +
            roundingDiff exRound (1/100))) :=
  rounding_assignment exRound (1/100) (by simp [exRound])
    (by norm_num [exRound, totalTargetPct])
    (by norm_num [exRound, totalCurrent])
    (by norm_num [roundingDiff, rebalQuantized, rebalAmounts, rebalAssets1, exRound,
      totalCurrent, totalTargetPct, idealBuySell, apply_constraints, constraintLoop,
      clampPass, clampOne, setCurrentPct, unconstrainedWeight, redistribute,
      quantize2, roundHalfUp])

/-! ### Pointwise buy/sell of the main path -/

theorem calculate_rebalance_main_length (assets : List AssetAllocation) (c : ℚ)
    (h1 : assets ≠ []) (h2 : totalTargetPct assets ≠ 0)
    (h3 : 0 < totalCurrent assets + c) :
    (calculate_rebalance assets c).length = assets.length := by
  rw [calculate_rebalance_main assets c h1 h2 h3, List.length_map, rebalAssets3_length]

theorem rebalance_main_getD_buy_sell (assets : List AssetAllocation) (c : ℚ)
    (h1 : assets ≠ []) (h2 : totalTargetPct assets ≠ 0)
    (h3 : 0 < totalCurrent assets + c) (i : ℕ) (hi : i < assets.length) :
    ((calculate_rebalance assets c).getD i default).buy_sell =
      if roundingDiff assets c = 0 then (rebalQuantized assets c).getD i 0
      else if i = rebalIdx assets c then
        (rebalQuantized assets c).getD (rebalIdx assets c) 0 + roundingDiff assets c
      else (rebalQuantized assets c).getD i 0 := by
  have hlen := calculate_rebalance_main_length assets c h1 h2 h3
  have hq := rebalQuantized_length assets c
  have hmap := rebalAssets3_map_buy_sell assets c h1
  have hout : ((calculate_rebalance assets c).getD i default).buy_sell =
      ((calculate_rebalance assets c).map AssetAllocation.buy_sell).getD i 0 :=
    (listGetDMapLt AssetAllocation.buy_sell _ i (by omega) 0 default).symm
  rw [hout, calculate_rebalance_main assets c h1 h2 h3, map_buy_sell_finalize, hmap]
  by_cases hd : roundingDiff assets c = 0
  · rw [if_pos hd, if_pos hd]
  · rw [if_neg hd, if_neg hd]
    by_cases hij : i = rebalIdx assets c
    · subst hij
      rw [if_pos rfl, listGetDSetEq _ _ _ _ (by rw [hq]; exact rebalIdx_lt assets c h1)]
    · rw [if_neg hij, listGetDSetNe _ _ _ _ _ (fun h => hij h.symm)]

/-! ### Claim C2: the no-sell invariant -/

/-- Cascade input: clamping A (no-sell) pushes B (no-sell) negative, whose
clamping in the next round redistributes back onto A (the per-round
constrained set has been reset), and so on; after `2 * 3` rounds the loop
exhausts its iteration budget with A still negative, although asset C is
never constrained. -/
def exCascade : List AssetAllocation :=
  [{ name := "A", target_pct := 10, current_value := 164 },
   { name := "B", target_pct := 10, current_value := 100 },
   { name := "C", target_pct := 10, current_value := 36, allow_sell := true }]

/-- The ideal vector handed to the constraint solver for `exCascade` with
contribution `0`. -/
def exCascadeIdeal : List ℚ :=
  idealBuySell (rebalAssets1 exCascade) (totalTargetPct exCascade)
    (totalCurrent exCascade + 0)

/-- **C2 (counterexample).** On `exCascade` with contribution `0`, asset 0 has
`allow_sell = false` yet ends with `buy_sell = -1 < 0`, even though asset 2 is
never marked constrained in any of the six executed rounds (so the solve does
not end with every asset constrained). -/
theorem no_sell_counterexample :
    (exCascade.getD 0 default).allow_sell = false ∧
    ((calculate_rebalance exCascade 0).getD 0 default).buy_sell = -1 ∧
    ¬ (0 ≤ ((calculate_rebalance exCascade 0).getD 0 default).buy_sell) ∧
    (∀ k, k < 6 →
      (solverMarks (rebalAssets1 exCascade) exCascadeIdeal k).getD 2 false = false) := by
  refine ⟨rfl, ?_, ?_, ?_⟩
  · norm_num [calculate_rebalance, exCascade, rebalAssets3, rebalAssets2, rebalIdx,
      roundingDiff, rebalQuantized, rebalAmounts, rebalAssets1, totalCurrent,
      totalTargetPct, idealBuySell, apply_constraints, constraintLoop, clampPass,
      clampOne, setCurrentPct, unconstrainedWeight, redistribute, quantize2,
      roundHalfUp, applyAmounts, maxAbsIdx, maxAbsAux, finalizePct, listGetDSetEq]
    rw [if_neg (by simp)]
    rfl
  · norm_num [calculate_rebalance, exCascade, rebalAssets3, rebalAssets2, rebalIdx,
      roundingDiff, rebalQuantized, rebalAmounts, rebalAssets1, totalCurrent,
      totalTargetPct, idealBuySell, apply_constraints, constraintLoop, clampPass,
      clampOne, setCurrentPct, unconstrainedWeight, redistribute, quantize2,
      roundHalfUp, applyAmounts, maxAbsIdx, maxAbsAux, finalizePct, listGetDSetEq]
    rw [if_neg (by simp)]
    norm_num
  · intro k hk
    interval_cases k <;>
      norm_num [solverMarks, solverState, Function.iterate_succ_apply,
        Function.iterate_zero_apply, stepOnce, exCascadeIdeal, exCascade,
        rebalAssets1, totalCurrent, totalTargetPct, idealBuySell, clampPass,
        clampOne, setCurrentPct, unconstrainedWeight, redistribute, quantize2,
        roundHalfUp]

/-- **C2 (amended).** If the output vector of the constraint solve satisfies the
no-violation condition (which holds whenever the solve converges via
`excess == 0`), then the final `buy_sell` of every no-sell asset is at least
`min 0 rounding_diff`: it is nonnegative except that the single asset which
absorbs a negative rounding difference may fall below zero by at most that
difference. -/
theorem no_sell_invariant_amended (assets : List AssetAllocation) (c : ℚ)
    (h1 : assets ≠ []) (h2 : totalTargetPct assets ≠ 0)
    (h3 : 0 < totalCurrent assets + c)
    (h4 : noViolB assets (rebalAmounts assets c) = true) :
    ∀ i, i < assets.length → (assets.getD i default).allow_sell = false →
      min 0 (roundingDiff assets c) ≤
        ((calculate_rebalance assets c).getD i default).buy_sell := by
  intro i hi hns
  have hlen : assets.length = (rebalAmounts assets c).length :=
    (rebalAmounts_length assets c).symm
  have hnv := noViolB_getD h4 hlen i hi
  have hq0 : 0 ≤ (rebalQuantized assets c).getD i 0 := by
    rw [rebalQuantized_getD assets c i hi]
    refine quantize2_nonneg ?_
    rcases hnv.1 with h | h
    · rw [hns] at h; exact Bool.noConfusion h
    · exact h
  rw [rebalance_main_getD_buy_sell assets c h1 h2 h3 i hi]
  by_cases hd : roundingDiff assets c = 0
  · rw [if_pos hd]
    exact le_trans (min_le_left _ _) hq0
  · rw [if_neg hd]
    by_cases hij : i = rebalIdx assets c
    · rw [if_pos hij]
      subst hij
      exact le_trans (min_le_right _ _) (by linarith)
    · rw [if_neg hij]
      exact le_trans (min_le_left _ _) hq0

theorem no_sell_invariant_amended_witness :
    min 0 (roundingDiff exBasic 1000) ≤
      ((calculate_rebalance exBasic 1000).getD 0 default).buy_sell :=
  no_sell_invariant_amended exBasic 1000 (by simp [exBasic])
    (by norm_num [exBasic, totalTargetPct]) (by norm_num [exBasic, totalCurrent])
    (by norm_num [noViolB, rebalAmounts, rebalAssets1, exBasic, totalCurrent,
      totalTargetPct, idealBuySell, apply_constraints, constraintLoop, clampPass,
      clampOne, setCurrentPct, unconstrainedWeight, redistribute])
    0 (by simp [exBasic]) rfl

/-! ### Claim C3: the sell-cap invariant -/

theorem quantize2_eq_self_of_int {x : ℚ} (n : ℤ) (h : 100 * x = (n : ℚ)) :
    quantize2 x = x := by
  unfold quantize2
  rw [h, roundHalfUp_intCast]
  linarith

/-- Asset A (`target_pct = 0`, fully sellable, worth `1`) is told to sell
everything (`buy_sell = -1.00`); the sub-cent withdrawal `-0.004` then lands
on A as a negative rounding difference, driving `buy_sell` to `-1.004`,
below `-current_value`. -/
def exSellCap : List AssetAllocation :=
  [{ name := "A", target_pct := 0, current_value := 1, allow_sell := true },
   { name := "B", target_pct := 10, current_value := 100, allow_sell := true }]

/-- **C3 (counterexample).** After `calculate_rebalance exSellCap (-1/250)`,
asset 0 has `buy_sell = -251/250 < -1 = -current_value`: the sell-cap
invariant does not hold with "no exception". -/
theorem sell_cap_counterexample :
    ((calculate_rebalance exSellCap (-1/250)).getD 0 default).buy_sell <
      -(exSellCap.getD 0 default).current_value := by
  norm_num [calculate_rebalance, exSellCap, rebalAssets3, rebalAssets2, rebalIdx,
    roundingDiff, rebalQuantized, rebalAmounts, rebalAssets1, totalCurrent,
    totalTargetPct, idealBuySell, apply_constraints, constraintLoop, clampPass,
    clampOne, setCurrentPct, unconstrainedWeight, redistribute, quantize2,
    roundHalfUp, applyAmounts, maxAbsIdx, maxAbsAux, finalizePct, listGetDSetEq]
  rw [if_neg (by simp)]
  norm_num

/-- **C3 (amended).** When the output of the constraint solve satisfies the
no-violation condition and every `current_value` is a whole number of cents,
the final `buy_sell` of each asset is at least
`-current_value + min 0 rounding_diff`: the cap can only be undershot by the
asset that absorbs a negative rounding difference, and by at most that
difference. -/
theorem sell_cap_amended (assets : List AssetAllocation) (c : ℚ)
    (h1 : assets ≠ []) (h2 : totalTargetPct assets ≠ 0)
    (h3 : 0 < totalCurrent assets + c)
    (h4 : noViolB assets (rebalAmounts assets c) = true)
    (h5 : ∀ a ∈ assets, ∃ n : ℤ, 100 * a.current_value = (n : ℚ)) :
    ∀ i, i < assets.length →
      -(assets.getD i default).current_value + min 0 (roundingDiff assets c) ≤
        ((calculate_rebalance assets c).getD i default).buy_sell := by
  intro i hi
  have hnv := noViolB_getD h4 (rebalAmounts_length assets c).symm i hi
  have hmem : assets.getD i default ∈ assets := by
    rw [List.getD_eq_getElem assets default hi]
    exact List.getElem_mem hi
  obtain ⟨n, hn⟩ := h5 _ hmem
  have hqc : quantize2 (-(assets.getD i default).current_value) =
      -(assets.getD i default).current_value :=
    quantize2_eq_self_of_int (-n) (by push_cast; linarith)
  have hq : -(assets.getD i default).current_value ≤
      (rebalQuantized assets c).getD i 0 := by
    rw [rebalQuantized_getD assets c i hi, ← hqc]
    exact quantize2_mono hnv.2
  rw [rebalance_main_getD_buy_sell assets c h1 h2 h3 i hi]
  by_cases hd : roundingDiff assets c = 0
  · rw [if_pos hd]
    have := min_le_left (0 : ℚ) (roundingDiff assets c)
    linarith
  · rw [if_neg hd]
    by_cases hij : i = rebalIdx assets c
    · rw [if_pos hij]
      subst hij
      have := min_le_right (0 : ℚ) (roundingDiff assets c)
      linarith
    · rw [if_neg hij]
      have := min_le_left (0 : ℚ) (roundingDiff assets c)
      linarith

theorem sell_cap_amended_witness :
    -(exBasic.getD 0 default).current_value + min 0 (roundingDiff exBasic 1000) ≤
      ((calculate_rebalance exBasic 1000).getD 0 default).buy_sell :=
  sell_cap_amended exBasic 1000 (by simp [exBasic])
    (by norm_num [exBasic, totalTargetPct]) (by norm_num [exBasic, totalCurrent])
    (by norm_num [noViolB, rebalAmounts, rebalAssets1, exBasic, totalCurrent,
      totalTargetPct, idealBuySell, apply_constraints, constraintLoop, clampPass,
      clampOne, setCurrentPct, unconstrainedWeight, redistribute])
    (by
      intro a ha
      simp only [exBasic, List.mem_cons, List.mem_singleton] at ha
      rcases ha with h | h | h
      · exact ⟨600000, by rw [h]; norm_num⟩
      · exact ⟨400000, by rw [h]; norm_num⟩
      · simp at h)
    0 (by simp [exBasic])

/-! ### Claim C4: behaviour of the constrained marks across rounds -/

theorem redistribute_marked (e w : ℚ) :
    ∀ (as : List AssetAllocation) (ms : List Bool) (rs : List ℚ) (i : ℕ),
      as.length = rs.length → ms.length = rs.length → i < rs.length →
      ms.getD i false = true →
      (redistribute e w as ms rs).getD i 0 = rs.getD i 0
  | [], _, rs, i, h, _, hi, _ => by simp at h; omega
  | _ :: _, [], rs, i, _, h', hi, _ => by simp at h'; omega
  | _ :: _, _ :: _, [], i, _, _, hi, _ => by simp at hi
  | a :: as, m :: ms, r :: rs, 0, _, _, _, hm => by
    simp only [List.getD_cons_zero] at hm
    simp [redistribute, hm]
  | a :: as, m :: ms, r :: rs, n + 1, h, h', hi, hm => by
    simp only [redistribute, List.getD_cons_succ]
    exact redistribute_marked e w as ms rs n (by simpa using h) (by simpa using h')
      (by simpa using hi) (by simpa using hm)

theorem clampPass_marked :
    ∀ (as : List AssetAllocation) (rs : List ℚ) (i : ℕ), as.length = rs.length →
      i < as.length → (clampPass as rs).marks.getD i false = true →
      ((clampPass as rs).res.getD i 0 = 0 ∨
        (clampPass as rs).res.getD i 0 = -(as.getD i default).current_value)
  | [], _, i, _, hi, _ => by simp at hi
  | _ :: _, [], i, h, _, _ => by simp at h
  | a :: as, r :: rs, 0, _, _, hm => by
    simp only [clampPass, List.getD_cons_zero] at hm ⊢
    unfold clampOne at hm ⊢
    by_cases hc1 : a.allow_sell = false ∧ r < 0
    · rw [if_pos hc1]
      exact Or.inl rfl
    · rw [if_neg hc1] at hm ⊢
      by_cases hc2 : r < -a.current_value
      · rw [if_pos hc2]
        exact Or.inr rfl
      · rw [if_neg hc2] at hm
        exact Bool.noConfusion hm
  | a :: as, r :: rs, n + 1, h, hi, hm => by
    simp only [clampPass, List.getD_cons_succ] at hm ⊢
    exact clampPass_marked as rs n (by simpa using h) (by simpa using hi) hm

/-- **C4 (amended).** The constrained marks are recomputed from scratch every
round.  Within a single round, a clamped (constrained) asset holds exactly its
clamp value (`0` for a no-sell violation, `-current_value` for an oversell)
and the redistribution of that same round does not change it — but nothing
persists into later rounds — and `_apply_constraints` runs the round loop at
most `2 * N` times, which need not reach convergence. -/
theorem constraint_round_amended (assets : List AssetAllocation) (rs : List ℚ)
    (c e w : ℚ) (i : ℕ)
    (hlen : assets.length = rs.length) (hi : i < assets.length)
    (hm : (clampPass assets rs).marks.getD i false = true) :
    ((clampPass assets rs).res.getD i 0 = 0 ∨
      (clampPass assets rs).res.getD i 0 = -(assets.getD i default).current_value) ∧
    (redistribute e w assets (clampPass assets rs).marks
        (clampPass assets rs).res).getD i 0 = (clampPass assets rs).res.getD i 0 ∧
    apply_constraints assets rs c = constraintLoop assets (assets.length * 2) rs := by
  have hres := clampPass_res_length assets rs hlen
  have hmarks := clampPass_marks_length assets rs hlen
  refine ⟨clampPass_marked assets rs i hlen hi hm, ?_, rfl⟩
  exact redistribute_marked e w assets _ _ i (by omega) (by omega) (by omega) hm

theorem constraint_round_amended_witness :
    (((clampPass (rebalAssets1 exCascade) exCascadeIdeal).res.getD 0 0 = 0 ∨
      (clampPass (rebalAssets1 exCascade) exCascadeIdeal).res.getD 0 0 =
        -((rebalAssets1 exCascade).getD 0 default).current_value) ∧
    (redistribute (-64) 20 (rebalAssets1 exCascade)
        (clampPass (rebalAssets1 exCascade) exCascadeIdeal).marks
        (clampPass (rebalAssets1 exCascade) exCascadeIdeal).res).getD 0 0 =
      (clampPass (rebalAssets1 exCascade) exCascadeIdeal).res.getD 0 0 ∧
    apply_constraints (rebalAssets1 exCascade) exCascadeIdeal 0 =
      constraintLoop (rebalAssets1 exCascade)
        ((rebalAssets1 exCascade).length * 2) exCascadeIdeal) :=
  constraint_round_amended (rebalAssets1 exCascade) exCascadeIdeal 0 (-64) 20 0
    (by simp [rebalAssets1, exCascade, exCascadeIdeal, idealBuySell])
    (by simp [rebalAssets1, exCascade])
    (by norm_num [clampPass, clampOne, rebalAssets1, exCascade, exCascadeIdeal,
      idealBuySell, totalCurrent, totalTargetPct, setCurrentPct, quantize2,
      roundHalfUp])

/-- **C4 (counterexample).** Asset 0 is marked constrained in round 0, is not
marked in round 1 (the set is rebuilt each round, so it does not only grow),
receives redistribution in round 1 (its amount moves from `0` to `-16`), and
after the full `2 * 3` rounds the solve has not converged: the clamping pass
on the final state still produces nonzero excess. -/
theorem constrained_set_counterexample :
    (solverMarks (rebalAssets1 exCascade) exCascadeIdeal 0).getD 0 false = true ∧
    (solverMarks (rebalAssets1 exCascade) exCascadeIdeal 1).getD 0 false = false ∧
    (solverState (rebalAssets1 exCascade) exCascadeIdeal 1).getD 0 0 = 0 ∧
    (solverState (rebalAssets1 exCascade) exCascadeIdeal 2).getD 0 0 = -16 ∧
    (clampPass (rebalAssets1 exCascade)
      (solverState (rebalAssets1 exCascade) exCascadeIdeal 6)).excess ≠ 0 ∧
    rebalAmounts exCascade 0 =
      solverState (rebalAssets1 exCascade) exCascadeIdeal 6 := by
  refine ⟨?_, ?_, ?_, ?_, ?_, ?_⟩ <;>
    norm_num [solverMarks, solverState, Function.iterate_succ_apply,
      Function.iterate_zero_apply, stepOnce, exCascadeIdeal, exCascade,
      rebalAmounts, apply_constraints, constraintLoop, rebalAssets1, totalCurrent,
      totalTargetPct, idealBuySell, clampPass, clampOne, setCurrentPct,
      unconstrainedWeight, redistribute, quantize2, roundHalfUp]

/-! ### Claim C9: a balanced portfolio is a fixed point -/

theorem listZipMapSelf {α β : Type} (f : α → β) :
    ∀ (l : List α) (p : α × β), p ∈ l.zip (l.map f) → p.1 ∈ l ∧ p.2 = f p.1
  | [], p, h => by simp at h
  | x :: xs, p, h => by
    rw [List.map_cons, List.zip_cons_cons] at h
    rcases List.mem_cons.mp h with h | h
    · subst h
      exact ⟨List.mem_cons_self _ _, rfl⟩
    · obtain ⟨h1, h2⟩ := listZipMapSelf f xs p h
      exact ⟨List.mem_cons_of_mem _ h1, h2⟩

/-- **C9.** If current values are exactly proportional to target weights
(`current_value_i / total_current = target_pct_i / total_target_pct` with
`total_current > 0` and nonnegative holdings), rebalancing with
contribution `0` produces `buy_sell = 0` for every asset. -/
theorem balanced_idempotent (assets : List AssetAllocation)
    (htc : 0 < totalCurrent assets)
    (hcv : ∀ a ∈ assets, 0 ≤ a.current_value)
    (hprop : ∀ a ∈ assets,
      a.current_value / totalCurrent assets =
        a.target_pct / totalTargetPct assets) :
    ∀ i, i < assets.length →
      ((calculate_rebalance assets 0).getD i default).buy_sell = 0 := by
  have hne : totalCurrent assets ≠ 0 := ne_of_gt htc
  by_cases httpz : totalTargetPct assets = 0
  · exfalso
    have hz : ∀ a ∈ assets, a.current_value = 0 := by
      intro a ha
      have h := hprop a ha
      rw [httpz, div_zero, div_eq_zero_iff] at h
      rcases h with h | h
      · exact h
      · exact absurd h hne
    have : totalCurrent assets = 0 := by
      apply List.sum_eq_zero
      intro x hx
      obtain ⟨a, ha, rfl⟩ := List.mem_map.mp hx
      exact hz a ha
    exact hne this
  · have h1 : assets ≠ [] := by
      intro h
      rw [h] at htc
      simp [totalCurrent] at htc
    have h3 : (0 : ℚ) < totalCurrent assets + 0 := by linarith
    have hzero : ∀ a ∈ rebalAssets1 assets,
        a.target_pct / totalTargetPct assets * (totalCurrent assets + 0) -
          a.current_value = 0 := by
      intro a ha
      obtain ⟨a0, ha0, rfl⟩ := List.mem_map.mp ha
      show a0.target_pct / totalTargetPct assets * (totalCurrent assets + 0) -
        a0.current_value = 0
      rw [add_zero, ← hprop a0 ha0, div_mul_cancel₀ _ hne]
      ring
    have hcv1 : ∀ a ∈ rebalAssets1 assets, 0 ≤ a.current_value := by
      intro a ha
      obtain ⟨a0, ha0, rfl⟩ := List.mem_map.mp ha
      exact hcv a0 ha0
    have hamt : rebalAmounts assets 0 =
        idealBuySell (rebalAssets1 assets) (totalTargetPct assets)
          (totalCurrent assets + 0) := by
      unfold rebalAmounts
      apply apply_constraints_of_ok
      · simp [idealBuySell]
      · intro p hp
        obtain ⟨hp1, hp2⟩ := listZipMapSelf _ _ p hp
        rw [hp2, hzero p.1 hp1]
        exact ⟨Or.inr le_rfl, by simpa using hcv1 p.1 hp1⟩
    have hqzero : ∀ x ∈ rebalQuantized assets 0, x = 0 := by
      intro x hx
      unfold rebalQuantized at hx
      obtain ⟨y, hy, rfl⟩ := List.mem_map.mp hx
      rw [hamt] at hy
      obtain ⟨a, ha, rfl⟩ := List.mem_map.mp hy
      rw [hzero a ha, quantize2_zero]
    have hsum : (rebalQuantized assets 0).sum = 0 := List.sum_eq_zero hqzero
    have hd : roundingDiff assets 0 = 0 := by
      unfold roundingDiff
      rw [hsum]
      ring
    intro i hi
    rw [rebalance_main_getD_buy_sell assets 0 h1 httpz h3 i hi, if_pos hd,
      rebalQuantized_getD assets 0 i hi, hamt]
    unfold idealBuySell
    rw [listGetDMapLt _ (rebalAssets1 assets) i
        (by rw [rebalAssets1_length]; exact hi) 0 default,
      hzero _ (by
        rw [List.getD_eq_getElem _ _ (by rw [rebalAssets1_length]; exact hi)]
        exact List.getElem_mem _),
      quantize2_zero]

theorem balanced_idempotent_witness :
    ((calculate_rebalance exBasic 0).getD 0 default).buy_sell = 0 :=
  balanced_idempotent exBasic (by norm_num [exBasic, totalCurrent])
    (by
      intro a ha
      simp only [exBasic, List.mem_cons, List.mem_singleton] at ha
      rcases ha with h | h | h
      · rw [h]; norm_num
      · rw [h]; norm_num
      · simp at h)
    (by
      intro a ha
      simp only [exBasic, List.mem_cons, List.mem_singleton] at ha
      rcases ha with h | h | h
      · rw [h]; norm_num [totalCurrent, totalTargetPct, exBasic]
      · rw [h]; norm_num [totalCurrent, totalTargetPct, exBasic]
      · simp at h)
    0 (by simp [exBasic])

/-! ### Claim C7: the auto-contribution formula -/

theorem listFoldlMaxInitLe : ∀ (xs : List ℚ) (x : ℚ), x ≤ xs.foldl max x
  | [], x => le_refl x
  | y :: ys, x => le_trans (le_max_left x y) (listFoldlMaxInitLe ys (max x y))

theorem listFoldlMaxMemLe : ∀ (xs : List ℚ) (x y : ℚ), y ∈ xs → y ≤ xs.foldl max x
  | [], _, _, h => by simp at h
  | z :: zs, x, y, h => by
    rcases List.mem_cons.mp h with h | h
    · subst h
      exact le_trans (le_max_right x y) (listFoldlMaxInitLe zs _)
    · exact listFoldlMaxMemLe zs _ y h

theorem listFoldlMaxCases : ∀ (xs : List ℚ) (x : ℚ),
    xs.foldl max x = x ∨ xs.foldl max x ∈ xs
  | [], x => Or.inl rfl
  | z :: zs, x => by
    rw [List.foldl_cons]
    rcases listFoldlMaxCases zs (max x z) with h | h
    · rcases max_choice x z with h1 | h1
      · exact Or.inl (by rw [h, h1])
      · exact Or.inr (by rw [h, h1]; exact List.mem_cons_self _ _)
    · exact Or.inr (List.mem_cons_of_mem _ h)

theorem setAllowSellAux_length (flags : ℕ → Bool) :
    ∀ (l : List AssetAllocation) (i : ℕ), (setAllowSellAux flags i l).length = l.length
  | [], _ => rfl
  | a :: as, i => by
    simp only [setAllowSellAux, List.length_cons]
    rw [setAllowSellAux_length flags as (i + 1)]

theorem setAllowSellAux_map_cv (flags : ℕ → Bool) :
    ∀ (l : List AssetAllocation) (i : ℕ),
      (setAllowSellAux flags i l).map AssetAllocation.current_value =
        l.map AssetAllocation.current_value
  | [], _ => rfl
  | a :: as, i => by
    simp only [setAllowSellAux, List.map_cons]
    rw [setAllowSellAux_map_cv flags as (i + 1)]

theorem setAllowSellAux_map_tp (flags : ℕ → Bool) :
    ∀ (l : List AssetAllocation) (i : ℕ),
      (setAllowSellAux flags i l).map AssetAllocation.target_pct =
        l.map AssetAllocation.target_pct
  | [], _ => rfl
  | a :: as, i => by
    simp only [setAllowSellAux, List.map_cons]
    rw [setAllowSellAux_map_tp flags as (i + 1)]

theorem setAllowSellAux_filterMap (flags : ℕ → Bool) (tc tp : ℚ) :
    ∀ (l : List AssetAllocation) (i : ℕ),
      (setAllowSellAux flags i l).filterMap (required_contribution tc tp) =
        l.filterMap (required_contribution tc tp)
  | [], _ => rfl
  | a :: as, i => by
    have hhead : required_contribution tc tp { a with allow_sell := flags i } =
        required_contribution tc tp a := rfl
    simp only [setAllowSellAux, List.filterMap_cons, hhead]
    rw [setAllowSellAux_filterMap flags tc tp as (i + 1)]

theorem setAllowSell_totalCurrent (assets : List AssetAllocation) (flags : ℕ → Bool) :
    totalCurrent (setAllowSell assets flags) = totalCurrent assets := by
  unfold totalCurrent setAllowSell
  rw [setAllowSellAux_map_cv]

theorem setAllowSell_totalTargetPct (assets : List AssetAllocation) (flags : ℕ → Bool) :
    totalTargetPct (setAllowSell assets flags) = totalTargetPct assets := by
  unfold totalTargetPct setAllowSell
  rw [setAllowSellAux_map_tp]

theorem setAllowSell_min_contributions (assets : List AssetAllocation)
    (flags : ℕ → Bool) :
    min_contributions (setAllowSell assets flags) = min_contributions assets := by
  unfold min_contributions
  rw [setAllowSell_totalCurrent, setAllowSell_totalTargetPct]
  exact setAllowSellAux_filterMap flags _ _ assets 0

/-- **C7.** `calculate_auto_contribution` returns `0` on an empty list or when
`total_target_pct == 0`; otherwise (when some asset has `target_pct > 0`) it
returns the maximum of `current_value * total_target_pct / target_pct -
total_current` over the assets with positive target, quantized half-up to
cents; and the result never depends on any `allow_sell` flag. -/
theorem auto_contribution_formula (assets : List AssetAllocation) :
    ((assets = [] ∨ totalTargetPct assets = 0) →
      calculate_auto_contribution assets = 0) ∧
    ((∃ a ∈ assets, 0 < a.target_pct) → totalTargetPct assets ≠ 0 →
      calculate_auto_contribution assets = quantize2 (maxRequiredVal assets) ∧
      (∃ a ∈ assets, 0 < a.target_pct ∧ maxRequiredVal assets =
        a.current_value * totalTargetPct assets / a.target_pct -
          totalCurrent assets) ∧
      (∀ a ∈ assets, 0 < a.target_pct →
        a.current_value * totalTargetPct assets / a.target_pct -
          totalCurrent assets ≤ maxRequiredVal assets)) ∧
    (∀ flags, calculate_auto_contribution (setAllowSell assets flags) =
      calculate_auto_contribution assets) := by
  refine ⟨?_, ?_, ?_⟩
  · rintro (h | h)
    · subst h
      rfl
    · unfold calculate_auto_contribution
      by_cases he : assets = []
      · rw [if_pos he]
      · rw [if_neg he, if_pos h]
  · rintro ⟨a, ha, hpos⟩ httpne
    have hne : assets ≠ [] := List.ne_nil_of_mem ha
    have hamem : a.current_value * totalTargetPct assets / a.target_pct -
        totalCurrent assets ∈ min_contributions assets := by
      apply List.mem_filterMap.mpr
      exact ⟨a, ha, by unfold required_contribution; rw [if_pos hpos]⟩
    have hmcne : min_contributions assets ≠ [] := List.ne_nil_of_mem hamem
    rcases hmc : min_contributions assets with _ | ⟨x, xs⟩
    · exact absurd hmc hmcne
    have hauto : calculate_auto_contribution assets = quantize2 (xs.foldl max x) := by
      unfold calculate_auto_contribution
      rw [if_neg hne, if_neg httpne, hmc]
    have hmax : maxRequiredVal assets = xs.foldl max x := by
      unfold maxRequiredVal
      rw [hmc]
    refine ⟨by rw [hauto, hmax], ?_, ?_⟩
    · have hcases : xs.foldl max x ∈ x :: xs := by
        rcases listFoldlMaxCases xs x with h | h
        · rw [h]; exact List.mem_cons_self _ _
        · exact List.mem_cons_of_mem _ h
      rw [← hmc] at hcases
      obtain ⟨b, hb, hreq⟩ := List.mem_filterMap.mp hcases
      unfold required_contribution at hreq
      by_cases hbpos : 0 < b.target_pct
      · rw [if_pos hbpos] at hreq
        exact ⟨b, hb, hbpos, by rw [hmax, ← Option.some_inj.mp hreq]⟩
      · rw [if_neg hbpos] at hreq
        exact Option.noConfusion hreq
    · intro b hb hbpos
      have hbmem : b.current_value * totalTargetPct assets / b.target_pct -
          totalCurrent assets ∈ min_contributions assets := by
        apply List.mem_filterMap.mpr
        exact ⟨b, hb, by unfold required_contribution; rw [if_pos hbpos]⟩
      rw [hmc] at hbmem
      rw [hmax]
      rcases List.mem_cons.mp hbmem with h | h
      · rw [h]
        exact listFoldlMaxInitLe xs x
      · exact listFoldlMaxMemLe xs x _ h
  · intro flags
    unfold calculate_auto_contribution
    by_cases he : assets = []
    · subst he
      rfl
    · have hne : setAllowSell assets flags ≠ [] := by
        intro h0
        apply he
        have := setAllowSellAux_length flags assets 0
        rw [show setAllowSellAux flags 0 assets = setAllowSell assets flags from rfl,
          h0] at this
        exact List.length_eq_zero.mp this.symm
      rw [if_neg he, if_neg hne, setAllowSell_totalTargetPct,
        setAllowSell_min_contributions]

/-- The auto-contribution scenario of the spec: 60/40 targets with values
6000/2000. -/
def exAuto : List AssetAllocation :=
  [{ name := "Stocks", target_pct := 60, current_value := 6000 },
   { name := "Bonds", target_pct := 40, current_value := 2000 }]

theorem auto_contribution_formula_witness :
    calculate_auto_contribution exAuto = quantize2 (maxRequiredVal exAuto) ∧
    calculate_auto_contribution (setAllowSell exAuto (fun _ => true)) =
      calculate_auto_contribution exAuto :=
  ⟨((auto_contribution_formula exAuto).2.1
      ⟨{ name := "Stocks", target_pct := 60, current_value := 6000 },
        by simp [exAuto], by norm_num⟩
      (by norm_num [exAuto, totalTargetPct])).1,
   (auto_contribution_formula exAuto).2.2 (fun _ => true)⟩

/-! ### Claim C8: feeding the auto contribution back into the allocator -/

/-- An asset with `target_pct = 0` holding the whole portfolio makes
`calculate_auto_contribution` return a pure withdrawal (`-100`), which
liquidates the portfolio instead of yielding nonnegative deltas. -/
def exAutoNeg : List AssetAllocation :=
  [{ name := "A", target_pct := 0, current_value := 100 },
   { name := "B", target_pct := 10, current_value := 0 }]

/-- **C8 (counterexample).** `exAutoNeg` is non-empty with positive
`total_target_pct`, yet rebalancing with the auto contribution (`-100`)
gives asset 0 a strictly negative `buy_sell` (`-100`), falsifying
"`buy_sell_i ≥ 0` for every asset". -/
theorem auto_contribution_sound_counterexample :
    exAutoNeg ≠ [] ∧ 0 < totalTargetPct exAutoNeg ∧
    calculate_auto_contribution exAutoNeg = -100 ∧
    ¬ (0 ≤ ((calculate_rebalance exAutoNeg
        (calculate_auto_contribution exAutoNeg)).getD 0 default).buy_sell) := by
  have hmc : min_contributions exAutoNeg = [-100] := by
    norm_num [min_contributions, exAutoNeg, required_contribution, totalCurrent,
      totalTargetPct, List.filterMap_cons]
  have hauto : calculate_auto_contribution exAutoNeg = -100 := by
    unfold calculate_auto_contribution
    rw [if_neg (by simp [exAutoNeg]), if_neg (by norm_num [exAutoNeg, totalTargetPct]),
      hmc]
    norm_num [quantize2, roundHalfUp]
  refine ⟨by simp [exAutoNeg], by norm_num [exAutoNeg, totalTargetPct], hauto, ?_⟩
  rw [hauto]
  norm_num [calculate_rebalance, exAutoNeg, rebalAssets1, totalCurrent,
    totalTargetPct, setCurrentPct, quantize2, roundHalfUp]
  rw [if_neg (by simp)]
  norm_num

theorem listSumEqZeroOfGetD :
    ∀ (l : List ℚ), (∀ j, j < l.length → l.getD j 0 = 0) → l.sum = 0
  | [], _ => rfl
  | x :: xs, h => by
    have h0 : x = 0 := h 0 (by simp)
    have htail : xs.sum = 0 :=
      listSumEqZeroOfGetD xs fun j hj => h (j + 1) (by simpa using hj)
    simp [h0, htail]

theorem maxRequiredVal_ub (assets : List AssetAllocation) (a : AssetAllocation)
    (ha : a ∈ assets) (hpos : 0 < a.target_pct) :
    a.current_value * totalTargetPct assets / a.target_pct - totalCurrent assets ≤
      maxRequiredVal assets := by
  have hamem : a.current_value * totalTargetPct assets / a.target_pct -
      totalCurrent assets ∈ min_contributions assets := by
    apply List.mem_filterMap.mpr
    exact ⟨a, ha, by unfold required_contribution; rw [if_pos hpos]⟩
  rcases hmc : min_contributions assets with _ | ⟨x, xs⟩
  · rw [hmc] at hamem
    simp at hamem
  · rw [hmc] at hamem
    unfold maxRequiredVal
    rw [hmc]
    rcases List.mem_cons.mp hamem with h | h
    · rw [h]
      exact listFoldlMaxInitLe xs x
    · exact listFoldlMaxMemLe xs x _ h

theorem maxRequiredVal_attained (assets : List AssetAllocation)
    (h : ∃ a ∈ assets, 0 < a.target_pct) :
    ∃ a ∈ assets, 0 < a.target_pct ∧ maxRequiredVal assets =
      a.current_value * totalTargetPct assets / a.target_pct -
        totalCurrent assets := by
  obtain ⟨a, ha, hpos⟩ := h
  have hamem : a.current_value * totalTargetPct assets / a.target_pct -
      totalCurrent assets ∈ min_contributions assets := by
    apply List.mem_filterMap.mpr
    exact ⟨a, ha, by unfold required_contribution; rw [if_pos hpos]⟩
  rcases hmc : min_contributions assets with _ | ⟨x, xs⟩
  · rw [hmc] at hamem
    simp at hamem
  have hcases : xs.foldl max x ∈ x :: xs := by
    rcases listFoldlMaxCases xs x with h | h
    · rw [h]
      exact List.mem_cons_self _ _
    · exact List.mem_cons_of_mem _ h
  rw [← hmc] at hcases
  obtain ⟨b, hb, hreq⟩ := List.mem_filterMap.mp hcases
  unfold required_contribution at hreq
  by_cases hbpos : 0 < b.target_pct
  · rw [if_pos hbpos] at hreq
    refine ⟨b, hb, hbpos, ?_⟩
    have hM : maxRequiredVal assets = xs.foldl max x := by
      unfold maxRequiredVal
      rw [hmc]
    rw [hM, ← Option.some_inj.mp hreq]
  · rw [if_neg hbpos] at hreq
    exact Option.noConfusion hreq

theorem auto_eq_quantize_maxRequiredVal (assets : List AssetAllocation)
    (h1 : assets ≠ []) (hpos : ∀ a ∈ assets, 0 < a.target_pct)
    (httpne : totalTargetPct assets ≠ 0) :
    calculate_auto_contribution assets = quantize2 (maxRequiredVal assets) := by
  obtain ⟨a, ha⟩ := List.exists_mem_of_ne_nil assets h1
  have hamem : a.current_value * totalTargetPct assets / a.target_pct -
      totalCurrent assets ∈ min_contributions assets := by
    apply List.mem_filterMap.mpr
    exact ⟨a, ha, by unfold required_contribution; rw [if_pos (hpos a ha)]⟩
  rcases hmc : min_contributions assets with _ | ⟨x, xs⟩
  · rw [hmc] at hamem
    simp at hamem
  · unfold calculate_auto_contribution maxRequiredVal
    rw [if_neg h1, if_neg httpne, hmc]

/-- **C8 (amended).** If every asset has a positive target weight and a
nonnegative value, the total value is positive, and the exact maximum
required contribution is already a whole number of cents (so quantization
does not move it), then rebalancing with
`contribution = calculate_auto_contribution assets` leaves at least one asset
with `buy_sell = 0` exactly; and, whenever the rounding difference is
nonnegative, every asset has `buy_sell ≥ 0`. -/
theorem auto_contribution_sound_amended (assets : List AssetAllocation)
    (h1 : assets ≠ [])
    (hpos : ∀ a ∈ assets, 0 < a.target_pct)
    (hcv : ∀ a ∈ assets, 0 ≤ a.current_value)
    (htc : 0 < totalCurrent assets)
    (hcent : quantize2 (maxRequiredVal assets) = maxRequiredVal assets) :
    (∃ i, i < assets.length ∧
      ((calculate_rebalance assets (calculate_auto_contribution assets)).getD i
        default).buy_sell = 0) ∧
    (0 ≤ roundingDiff assets (calculate_auto_contribution assets) →
      ∀ i, i < assets.length →
        0 ≤ ((calculate_rebalance assets
          (calculate_auto_contribution assets)).getD i default).buy_sell) := by
  have httppos : 0 < totalTargetPct assets := by
    apply List.sum_pos
    · intro x hx
      obtain ⟨a, ha, rfl⟩ := List.mem_map.mp hx
      exact hpos a ha
    · simpa using h1
  have httpne : totalTargetPct assets ≠ 0 := ne_of_gt httppos
  have hc : calculate_auto_contribution assets = maxRequiredVal assets := by
    rw [auto_eq_quantize_maxRequiredVal assets h1 hpos httpne, hcent]
  rw [hc]
  obtain ⟨j, hj, hjpos⟩ : ∃ a ∈ assets, 0 < a.current_value := by
    by_contra hno
    push_neg at hno
    have hz : totalCurrent assets = 0 := by
      apply List.sum_eq_zero
      intro x hx
      obtain ⟨a, ha, rfl⟩ := List.mem_map.mp hx
      exact le_antisymm (hno a ha) (hcv a ha)
    linarith
  have hT : 0 < totalCurrent assets + maxRequiredVal assets := by
    have hub := maxRequiredVal_ub assets j hj (hpos j hj)
    have hjq : 0 < j.current_value * totalTargetPct assets / j.target_pct :=
      div_pos (mul_pos hjpos httppos) (hpos j hj)
    linarith
  have hideal0 : ∀ a ∈ assets,
      0 ≤ a.target_pct / totalTargetPct assets *
        (totalCurrent assets + maxRequiredVal assets) - a.current_value := by
    intro a ha
    have hub := maxRequiredVal_ub assets a ha (hpos a ha)
    have h2 : a.current_value * totalTargetPct assets / a.target_pct ≤
        totalCurrent assets + maxRequiredVal assets := by linarith
    rw [div_le_iff₀ (hpos a ha)] at h2
    rw [sub_nonneg, div_mul_eq_mul_div, le_div_iff₀ httppos]
    linarith [mul_comm a.target_pct
      (totalCurrent assets + maxRequiredVal assets)]
  have hamt : rebalAmounts assets (maxRequiredVal assets) =
      idealBuySell (rebalAssets1 assets) (totalTargetPct assets)
        (totalCurrent assets + maxRequiredVal assets) := by
    unfold rebalAmounts
    apply apply_constraints_of_ok
    · simp [idealBuySell]
    · intro p hp
      obtain ⟨hp1, hp2⟩ := listZipMapSelf _ _ p hp
      obtain ⟨a0, ha0, hpa⟩ := List.mem_map.mp hp1
      have hz : 0 ≤ p.2 := by
        rw [hp2, ← hpa]
        exact hideal0 a0 ha0
      have hcv0 : 0 ≤ p.1.current_value := by
        rw [← hpa]
        exact hcv a0 ha0
      exact ⟨Or.inr hz, le_trans (neg_nonpos.mpr hcv0) hz⟩
  have hqA : ∀ i, i < assets.length →
      (rebalQuantized assets (maxRequiredVal assets)).getD i 0 =
        quantize2 ((assets.getD i default).target_pct / totalTargetPct assets *
          (totalCurrent assets + maxRequiredVal assets) -
            (assets.getD i default).current_value) := by
    intro i hi
    rw [rebalQuantized_getD assets _ i hi, hamt]
    unfold idealBuySell
    rw [listGetDMapLt _ (rebalAssets1 assets) i
        (by rw [rebalAssets1_length]; exact hi) 0 default,
      rebalAssets1_getD assets i hi]
    rfl
  have hgetDmem : ∀ i, i < assets.length → assets.getD i default ∈ assets := by
    intro i hi
    rw [List.getD_eq_getElem assets default hi]
    exact List.getElem_mem hi
  have hq0 : ∀ i, i < assets.length →
      0 ≤ (rebalQuantized assets (maxRequiredVal assets)).getD i 0 := by
    intro i hi
    rw [hqA i hi]
    exact quantize2_nonneg (hideal0 _ (hgetDmem i hi))
  obtain ⟨b, hbmem, hbpos, hbeq⟩ := maxRequiredVal_attained assets
    (by
      obtain ⟨a, ha⟩ := List.exists_mem_of_ne_nil assets h1
      exact ⟨a, ha, hpos a ha⟩)
  obtain ⟨ib, hiblt, hibeq⟩ := List.getElem_of_mem hbmem
  have hibgetD : assets.getD ib default = b := by
    rw [List.getD_eq_getElem assets default hiblt, hibeq]
  have htpbne : b.target_pct ≠ 0 := ne_of_gt hbpos
  have hidealb : b.target_pct / totalTargetPct assets *
      (totalCurrent assets + maxRequiredVal assets) - b.current_value = 0 := by
    rw [hbeq]
    field_simp
    ring
  have hqb : (rebalQuantized assets (maxRequiredVal assets)).getD ib 0 = 0 := by
    rw [hqA ib hiblt, hibgetD, hidealb, quantize2_zero]
  constructor
  · by_cases hd : roundingDiff assets (maxRequiredVal assets) = 0
    · exact ⟨ib, hiblt, by
        rw [rebalance_main_getD_buy_sell assets _ h1 httpne hT ib hiblt,
          if_pos hd, hqb]⟩
    · by_cases hibx : ib = rebalIdx assets (maxRequiredVal assets)
      · have h0 : (rebalQuantized assets (maxRequiredVal assets)).getD
            (maxAbsIdx (rebalQuantized assets (maxRequiredVal assets))) 0 = 0 := by
          rw [show maxAbsIdx (rebalQuantized assets (maxRequiredVal assets)) =
            rebalIdx assets (maxRequiredVal assets) from rfl, ← hibx]
          exact hqb
        have hallzero : ∀ k, k < assets.length →
            (rebalQuantized assets (maxRequiredVal assets)).getD k 0 = 0 := by
          intro k hk
          have hmax := maxAbsIdx_is_max _
            (rebalQuantized_ne_nil assets (maxRequiredVal assets) h1) k
            (by rw [rebalQuantized_length]; exact hk)
          rw [h0, abs_zero] at hmax
          exact abs_eq_zero.mp (le_antisymm hmax (abs_nonneg _))
        have hsum0 : (rebalQuantized assets (maxRequiredVal assets)).sum = 0 :=
          listSumEqZeroOfGetD _ fun k hk =>
            hallzero k (by rwa [rebalQuantized_length] at hk)
        have hdM : roundingDiff assets (maxRequiredVal assets) =
            maxRequiredVal assets := by
          unfold roundingDiff
          rw [hsum0]
          ring
        rcases Nat.lt_or_ge assets.length 2 with hlen2 | hlen2
        · exfalso
          have hlen1 : assets.length = 1 := by
            have := List.length_pos.mpr h1
            omega
          obtain ⟨a, ha1⟩ := List.length_eq_one.mp hlen1
          have hatp : 0 < a.target_pct := hpos a (by rw [ha1]; simp)
          have hMzero : maxRequiredVal assets = 0 := by
            rw [ha1]
            have hmc1 : min_contributions [a] =
                [a.current_value * totalTargetPct [a] / a.target_pct -
                  totalCurrent [a]] := by
              unfold min_contributions
              simp [required_contribution, hatp, List.filterMap_cons]
            unfold maxRequiredVal
            rw [hmc1]
            show a.current_value * totalTargetPct [a] / a.target_pct -
              totalCurrent [a] = 0
            have ht1 : totalTargetPct [a] = a.target_pct := by
              simp [totalTargetPct]
            have ht2 : totalCurrent [a] = a.current_value := by
              simp [totalCurrent]
            rw [ht1, ht2, mul_div_assoc, div_self (ne_of_gt hatp), mul_one]
            ring
          rw [hdM, hMzero] at hd
          exact hd rfl
        · have hidxlt := rebalIdx_lt assets (maxRequiredVal assets) h1
          by_cases hz : rebalIdx assets (maxRequiredVal assets) = 0
          · refine ⟨1, by omega, ?_⟩
            rw [rebalance_main_getD_buy_sell assets _ h1 httpne hT 1 (by omega),
              if_neg hd, if_neg (by omega)]
            exact hallzero 1 (by omega)
          · refine ⟨0, by omega, ?_⟩
            rw [rebalance_main_getD_buy_sell assets _ h1 httpne hT 0 (by omega),
              if_neg hd, if_neg (by omega)]
            exact hallzero 0 (by omega)
      · exact ⟨ib, hiblt, by
          rw [rebalance_main_getD_buy_sell assets _ h1 httpne hT ib hiblt,
            if_neg hd, if_neg hibx, hqb]⟩
  · intro hd0 i hi
    rw [rebalance_main_getD_buy_sell assets _ h1 httpne hT i hi]
    by_cases hd : roundingDiff assets (maxRequiredVal assets) = 0
    · rw [if_pos hd]
      exact hq0 i hi
    · rw [if_neg hd]
      by_cases hij : i = rebalIdx assets (maxRequiredVal assets)
      · rw [if_pos hij]
        have := hq0 (rebalIdx assets (maxRequiredVal assets))
          (rebalIdx_lt assets (maxRequiredVal assets) h1)
        linarith
      · rw [if_neg hij]
        exact hq0 i hi

theorem auto_contribution_sound_amended_witness :
    (∃ i, i < exAuto.length ∧
      ((calculate_rebalance exAuto (calculate_auto_contribution exAuto)).getD i
        default).buy_sell = 0) ∧
    (0 ≤ roundingDiff exAuto (calculate_auto_contribution exAuto) →
      ∀ i, i < exAuto.length →
        0 ≤ ((calculate_rebalance exAuto
          (calculate_auto_contribution exAuto)).getD i default).buy_sell) :=
  auto_contribution_sound_amended exAuto (by simp [exAuto])
    (by
      intro a ha
      simp only [exAuto, List.mem_cons, List.mem_singleton] at ha
      rcases ha with h | h | h
      · rw [h]; norm_num
      · rw [h]; norm_num
      · simp at h)
    (by
      intro a ha
      simp only [exAuto, List.mem_cons, List.mem_singleton] at ha
      rcases ha with h | h | h
      · rw [h]; norm_num
      · rw [h]; norm_num
      · simp at h)
    (by norm_num [exAuto, totalCurrent])
    (by
      have hmc : min_contributions exAuto = [2000, -3000] := by
        norm_num [min_contributions, exAuto, required_contribution, totalCurrent,
          totalTargetPct, List.filterMap_cons]
      have hM : maxRequiredVal exAuto = 2000 := by
        unfold maxRequiredVal
        rw [hmc]
        norm_num
      rw [hM]
      norm_num [quantize2, roundHalfUp])
